import Mathlib

/-!
Verification development for the query-routing, aggregation, lookup, masking,
joining and loading logic of the Korean business-data chat assistant.

Modelling conventions (shallow embedding of the Python sources):
* query strings and cell values are `List Char`;
* Python `str.lower()` is modelled by `Char.toLower` (ASCII case folding; all
  keywords of this code base are Korean or ASCII, where the two agree);
* Python regex `\d` is modelled by `Char.isDigit` (ASCII digits, the digit
  alphabet of this code base), `\s` by `Char.isWhitespace`, and `\w` by
  ASCII alphanumerics, underscore and Hangul syllables (the word alphabet of
  this code base);
* float scores of the router are exact multiples of 1/2 and the confidence
  is an exact multiple of 1/30 for the reachable score range, so scores are
  modelled as integers in units of 1/2 (a Python score s is stored as 2*s)
  and the confidence as an integer in units of 1/30 (a Python confidence c
  is stored as 30*c); the rational-valued views divide back out, and no
  floating-point rounding occurs for these ranges.
-/

/-- Substring containment, Python's `needle in hay`. -/
def containsSub (needle hay : List Char) : Bool :=
  hay.tails.any (fun t => needle.isPrefixOf t)

/-- Python `str.lower()` on the character list (ASCII folding). -/
def lowerChars (s : List Char) : List Char :=
  s.map Char.toLower

/-- Hangul syllable block test: the character class of the regex range used
by the sources for Korean proper-noun shapes. -/
def isHangulSyl (c : Char) : Bool :=
  0xAC00 ≤ c.toNat && c.toNat ≤ 0xD7A3

/-- Word character for the regex class used in rule 2 of the router
(ASCII alphanumerics, underscore, Hangul syllables). -/
def isWordChar (c : Char) : Bool :=
  c.isAlphanum || c == '_' || isHangulSyl c

/-- Length of the maximal leading digit run (used to model greedy runs of
the regex digit class). -/
def digitRunLen : List Char → Nat
  | [] => 0
  | c :: cs => if c.isDigit then digitRunLen cs + 1 else 0

/-- Decimal value of a digit list (Python `int(...)` on the matched group). -/
def digitsToNat (s : List Char) : Nat :=
  s.foldl (fun acc c => acc * 10 + (c.toNat - '0'.toNat)) 0

/-- Attempt of the pattern of router rule 1 and of the calc-engine limit
extraction at the head of the string: one of the three sort keywords,
optional whitespace, then at least one digit; the greedy digit run is the
captured number. -/
def topNAt (s : List Char) : Option Nat :=
  let tryKw : List Char → Option Nat := fun kw =>
    if kw.isPrefixOf s then
      let t := (s.drop kw.length).dropWhile Char.isWhitespace
      let l := digitRunLen t
      if l = 0 then none else some (digitsToNat (t.take l))
    else none
  match tryKw "top".data with
  | some n => some n
  | none =>
    match tryKw "상위".data with
    | some n => some n
    | none => tryKw "하위".data

/-- Leftmost match of the three-keyword top-N pattern over the whole string. -/
def findTopN : List Char → Option Nat
  | [] => none
  | c :: rest =>
    match topNAt (c :: rest) with
    | some n => some n
    | none => findTopN rest

/-- Head attempt of the bottom-N pattern used in the second branch of the
calc-engine limit extraction. -/
def bottomNAt (s : List Char) : Option Nat :=
  if "하위".data.isPrefixOf s then
    let t := (s.drop 2).dropWhile Char.isWhitespace
    let l := digitRunLen t
    if l = 0 then none else some (digitsToNat (t.take l))
  else none

/-- Leftmost match of the bottom-N pattern. -/
def findBottomN : List Char → Option Nat
  | [] => none
  | c :: rest =>
    match bottomNAt (c :: rest) with
    | some n => some n
    | none => findBottomN rest

/-- Presence of a word character immediately before the given character
somewhere in the string: the group-by suffix pattern of router rule 2. -/
def hasWordCharBefore (target : Char) : List Char → Bool
  | a :: b :: rest =>
    (isWordChar a && b == target) || hasWordCharBefore target (b :: rest)
  | _ => false

/-- Presence of a digit immediately before the given character; models a
one-or-more digit run followed by that character. -/
def hasDigitBefore (target : Char) : List Char → Bool
  | a :: b :: rest =>
    (a.isDigit && b == target) || hasDigitBefore target (b :: rest)
  | _ => false

/-- Presence of exactly four digits followed by the year character somewhere
in the string. -/
def hasYearTok : List Char → Bool
  | a :: b :: c :: d :: e :: rest =>
    (a.isDigit && b.isDigit && c.isDigit && d.isDigit && e == '년')
      || hasYearTok (b :: c :: d :: e :: rest)
  | _ => false

/-- Maximal runs of Hangul syllables of the string (the matches of the
Korean proper-noun regex), accumulator version. -/
def hangulRunsAux (cur : List Char) : List Char → List (List Char)
  | [] => if cur.isEmpty then [] else [cur.reverse]
  | c :: rest =>
    if isHangulSyl c then hangulRunsAux (c :: cur) rest
    else (if cur.isEmpty then [] else [cur.reverse]) ++ hangulRunsAux [] rest

/-- Maximal runs of Hangul syllables of the string. -/
def hangulRuns (s : List Char) : List (List Char) :=
  hangulRunsAux [] s

/-- CALC-mode keywords of QueryRouter. -/
def CALC_KEYWORDS : List (List Char) :=
  (["합계", "총", "평균", "최대", "최소", "최댓값", "최솟값",
    "상위", "하위", "Top", "top", "랭킹", "순위",
    "추이", "전월", "전년", "증감", "증가", "감소", "변화",
    "월별", "분기별", "년도별", "기간별", "일별", "주별",
    "그룹별", "거래처별", "제품별", "품목별", "지역별", "담당자별",
    "필터", "조건", "범위",
    "몇", "얼마", "몇개", "몇건", "건수", "개수", "수량",
    "비율", "퍼센트", "%", "점유율", "비중"] : List String).map String.data

/-- LOOKUP-mode keywords of QueryRouter. -/
def LOOKUP_KEYWORDS : List (List Char) :=
  (["특정", "해당", "이 거래처", "이 주문", "이 제품",
    "언제", "누가", "어디", "무엇",
    "주문번호", "거래코드", "사업자번호"] : List String).map String.data

/-- RAG-mode keywords of QueryRouter. -/
def RAG_KEYWORDS : List (List Char) :=
  (["이란", "무엇", "뭐야", "설명", "정의", "의미",
    "어떻게", "왜", "이유", "방법",
    "영업일지", "일지", "메모", "기록", "노트",
    "규정", "가이드", "지침", "정책",
    "코드북", "항목", "컬럼", "필드", "데이터",
    "A-", "B-", "C-", "D-", "E-", "F-", "G-", "H-", "I-", "J-"] : List String).map String.data

/-- Keyword matching score in half-units: one point (two half-units) per
keyword whose lowercase form is a substring of the (already lowercased)
query. -/
def keywordScore (qLower : List Char) (kws : List (List Char)) : ℤ :=
  2 * ((kws.filter (fun k => containsSub (lowerChars k) qLower)).length : ℤ)

/-- Rule 1 of the router: the top-N pattern occurs in the lowercased query. -/
def routerRule1 (qLower : List Char) : Bool :=
  (findTopN qLower).isSome

/-- Rule 2 of the router: a word character directly followed by the group-by
suffix character occurs in the query. -/
def routerRule2 (q : List Char) : Bool :=
  hasWordCharBefore '별' q

/-- Comparison words of rule 3 of the router. -/
def comparisonWords : List (List Char) :=
  (["비교", "차이", "이상", "이하", "초과", "미만"] : List String).map String.data

/-- Rule 3 of the router: a comparison or range word occurs in the query. -/
def routerRule3 (q : List Char) : Bool :=
  comparisonWords.any (fun w => containsSub w q)

/-- Interrogative suffixes of rule 4 of the router. -/
def interrogativeSuffixes : List (List Char) :=
  (["이란", "란", "는", "은", "무엇", "뭐", "의미", "설명", "인가요", "인가"] :
    List String).map String.data

/-- Rule 4 of the router: after stripping any trailing question marks, the
query ends in one of the interrogative suffixes (the anchored regex
alternation with an optional question-mark tail). -/
def routerRule4 (q : List Char) : Bool :=
  let core := (q.reverse.dropWhile (fun c => c == '?')).reverse
  interrogativeSuffixes.any (fun a => a.isSuffixOf core)

/-- Question words excluded from the proper-noun heuristic of the router. -/
def routerQuestionWords : List (List Char) :=
  (["무엇", "어디", "언제", "누구", "왜", "어떻게", "합계", "평균", "알려", "보여"] :
    List String).map String.data

/-- Rule 5 of the router: the query has a Hangul run of length at least two
that is not one of the question words. -/
def containsSpecificName (q : List Char) : Bool :=
  (hangulRuns q).any (fun r => 2 ≤ r.length && !(routerQuestionWords.contains r))

/-- Relative-time words of rule 6 of the router. -/
def relativeTimeWords : List (List Char) :=
  (["최근", "지난", "올해", "작년"] : List String).map String.data

/-- Rule 6 of the router: a year, month or day token or a relative-time word
occurs in the query. -/
def routerRule6 (q : List Char) : Bool :=
  hasYearTok q || hasDigitBefore '월' q || hasDigitBefore '일' q
    || relativeTimeWords.any (fun w => containsSub w q)

/-- Routing modes of the query router. -/
inductive QueryMode where
  | CALC
  | LOOKUP
  | RAG
deriving DecidableEq, Repr

/-- Routing result: mode and confidence in units of 1/30 (the free-text
reasoning field of the Python dataclass carries no logic and is omitted). -/
structure RoutingResult where
  mode : QueryMode
  confidence30 : ℤ
deriving DecidableEq, Repr

/-- Maximum of two integers by an explicit comparison (kernel-reducible
form of max, used so that concrete routing results evaluate). -/
def imax (a b : ℤ) : ℤ := if a ≤ b then b else a

/-- Minimum of two integers by an explicit comparison. -/
def imin (a b : ℤ) : ℤ := if a ≤ b then a else b

theorem imax_eq_max (a b : ℤ) : imax a b = max a b := by
  simp [imax, max_def]

theorem imin_eq_min (a b : ℤ) : imin a b = min a b := by
  simp [imin, min_def]

/-- Bonus adjustment chain of QueryRouter.route on the three base scores
(half-units), given the truth of the six rule conditions, in the exact
sequence of the source: rules 1-6 add 2.0, 1.5, 1.0, 3.0 with -1.0, 1.0 or
2.0, 1.0 or 0.5 (4, 3, 2, 6 with -2, 2 or 4, 2 or 1 half-units); rules 5
and 6 test whether the current CALC score is positive. -/
def adjustScoresDoc : Unit := ()

/-- Unconditional bonus: add d to x when the rule fires. -/
def bumpIf (b : Bool) (x d : ℤ) : ℤ :=
  if b then x + d else x

/-- Conditional bonus of rules 5 and 6 applied to the CALC score itself:
when the rule fires and the current CALC score c is positive, add d. -/
def bumpPos (b : Bool) (c x d : ℤ) : ℤ :=
  if b then (if c > 0 then x + d else x) else x

/-- Conditional bonus of rules 5 and 6 applied to the LOOKUP score: when
the rule fires and the current CALC score c is not positive, add d. -/
def bumpNeg (b : Bool) (c x d : ℤ) : ℤ :=
  if b then (if c > 0 then x else x + d) else x

def adjustScores (c0 l0 r0 : ℤ) (b1 b2 b3 b4 b5 b6 : Bool) : ℤ × ℤ × ℤ :=
  let c3 := bumpIf b3 (bumpIf b2 (bumpIf b1 c0 4) 3) 2
  let r1 := bumpIf b4 r0 6
  let l1 := bumpIf b4 l0 (-2)
  let c4 := bumpPos b5 c3 c3 2
  let l2 := bumpNeg b5 c3 l1 4
  let c5 := bumpPos b6 c4 c4 2
  let l3 := bumpNeg b6 c4 l2 1
  (c5, l3, r1)

/-- Scores of the three modes after all bonus adjustments, in half-units. -/
def routeScores (q : List Char) : ℤ × ℤ × ℤ :=
  let qLower := lowerChars q
  adjustScores
    (keywordScore qLower CALC_KEYWORDS)
    (keywordScore qLower LOOKUP_KEYWORDS)
    (keywordScore qLower RAG_KEYWORDS)
    (routerRule1 qLower) (routerRule2 q) (routerRule3 q) (routerRule4 q)
    (containsSpecificName q) (routerRule6 q)

/-- Largest of the three mode scores, in half-units. -/
def maxRouteScore (q : List Char) : ℤ :=
  imax (routeScores q).1 (imax (routeScores q).2.1 (routeScores q).2.2)

/-- QueryRouter.route: highest score wins, ties broken in the dictionary
insertion order CALC, LOOKUP, RAG; all-zero scores default to LOOKUP with
confidence 0.3 (9 thirtieths); otherwise the confidence is
min(max_score / 3, 1.0), which in thirtieths of the half-unit max score is
min(5 * maxHalf, 30). -/
def route (q : List Char) : RoutingResult :=
  let s := routeScores q
  let maxScore := imax s.1 (imax s.2.1 s.2.2)
  if maxScore = 0 then
    { mode := QueryMode.LOOKUP, confidence30 := 9 }
  else
    let mode :=
      if s.1 = maxScore then QueryMode.CALC
      else if s.2.1 = maxScore then QueryMode.LOOKUP
      else QueryMode.RAG
    { mode := mode, confidence30 := imin (5 * maxScore) 30 }

/-- Confidence of the routing result as the rational the Python code
computes (thirtieths divided back out). -/
def confidenceQ (q : List Char) : ℚ :=
  (((route q).confidence30 : ℚ)) / 30

theorem keywordScore_nonneg (qLower : List Char) (kws : List (List Char)) :
    0 ≤ keywordScore qLower kws := by
  unfold keywordScore
  positivity

theorem le_bumpIf (b : Bool) (x d : ℤ) (hd : 0 ≤ d) : x ≤ bumpIf b x d := by
  unfold bumpIf
  split_ifs <;> linarith

theorem le_bumpPos (b : Bool) (c x d : ℤ) (hd : 0 ≤ d) : x ≤ bumpPos b c x d := by
  unfold bumpPos
  split_ifs <;> linarith

theorem le_bumpNeg (b : Bool) (c x d : ℤ) (hd : 0 ≤ d) : x ≤ bumpNeg b c x d := by
  unfold bumpNeg
  split_ifs <;> linarith

theorem adjustScores_fst_nonneg (c0 l0 r0 : ℤ) (b1 b2 b3 b4 b5 b6 : Bool)
    (hc : 0 ≤ c0) : 0 ≤ (adjustScores c0 l0 r0 b1 b2 b3 b4 b5 b6).1 := by
  unfold adjustScores
  dsimp only
  have h1 := le_bumpIf b1 c0 4 (by norm_num)
  have h2 := le_bumpIf b2 (bumpIf b1 c0 4) 3 (by norm_num)
  have h3 := le_bumpIf b3 (bumpIf b2 (bumpIf b1 c0 4) 3) 2 (by norm_num)
  have h5 := le_bumpPos b5 (bumpIf b3 (bumpIf b2 (bumpIf b1 c0 4) 3) 2)
    (bumpIf b3 (bumpIf b2 (bumpIf b1 c0 4) 3) 2) 2 (by norm_num)
  have h6 := le_bumpPos b6
    (bumpPos b5 (bumpIf b3 (bumpIf b2 (bumpIf b1 c0 4) 3) 2)
      (bumpIf b3 (bumpIf b2 (bumpIf b1 c0 4) 3) 2) 2)
    (bumpPos b5 (bumpIf b3 (bumpIf b2 (bumpIf b1 c0 4) 3) 2)
      (bumpIf b3 (bumpIf b2 (bumpIf b1 c0 4) 3) 2) 2) 2 (by norm_num)
  linarith

theorem adjustScores_rag_nonneg (c0 l0 r0 : ℤ) (b1 b2 b3 b4 b5 b6 : Bool)
    (hr : 0 ≤ r0) : 0 ≤ (adjustScores c0 l0 r0 b1 b2 b3 b4 b5 b6).2.2 := by
  unfold adjustScores
  dsimp only
  have h4 := le_bumpIf b4 r0 6 (by norm_num)
  linarith

theorem adjustScores_lookup_cases (c0 l0 r0 : ℤ) (b1 b2 b3 b4 b5 b6 : Bool)
    (hl : 0 ≤ l0) (hr : 0 ≤ r0) :
    0 ≤ (adjustScores c0 l0 r0 b1 b2 b3 b4 b5 b6).2.1 ∨
      6 ≤ (adjustScores c0 l0 r0 b1 b2 b3 b4 b5 b6).2.2 := by
  cases b4
  · left
    unfold adjustScores
    dsimp only
    have h5 := le_bumpNeg b5 (bumpIf b3 (bumpIf b2 (bumpIf b1 c0 4) 3) 2)
      (bumpIf false l0 (-2)) 4 (by norm_num)
    have h6 := le_bumpNeg b6
      (bumpPos b5 (bumpIf b3 (bumpIf b2 (bumpIf b1 c0 4) 3) 2)
        (bumpIf b3 (bumpIf b2 (bumpIf b1 c0 4) 3) 2) 2)
      (bumpNeg b5 (bumpIf b3 (bumpIf b2 (bumpIf b1 c0 4) 3) 2)
        (bumpIf false l0 (-2)) 4) 1 (by norm_num)
    have hb : bumpIf false l0 (-2) = l0 := by simp [bumpIf]
    rw [hb] at h5 h6 ⊢
    linarith
  · right
    unfold adjustScores
    dsimp only
    have hb : bumpIf true r0 6 = r0 + 6 := by simp [bumpIf]
    rw [hb]
    linarith

theorem calcScore_nonneg (q : List Char) : 0 ≤ (routeScores q).1 :=
  adjustScores_fst_nonneg _ _ _ _ _ _ _ _ _
    (keywordScore_nonneg (lowerChars q) CALC_KEYWORDS)

theorem ragScore_nonneg (q : List Char) : 0 ≤ (routeScores q).2.2 :=
  adjustScores_rag_nonneg _ _ _ _ _ _ _ _ _
    (keywordScore_nonneg (lowerChars q) RAG_KEYWORDS)

theorem lookupScore_cases (q : List Char) :
    0 ≤ (routeScores q).2.1 ∨ 6 ≤ (routeScores q).2.2 :=
  adjustScores_lookup_cases _ _ _ _ _ _ _ _ _
    (keywordScore_nonneg (lowerChars q) LOOKUP_KEYWORDS)
    (keywordScore_nonneg (lowerChars q) RAG_KEYWORDS)

theorem route_eq_branch (q : List Char) :
    route q =
      if maxRouteScore q = 0 then
        { mode := QueryMode.LOOKUP, confidence30 := 9 }
      else
        { mode :=
            if (routeScores q).1 = maxRouteScore q then QueryMode.CALC
            else if (routeScores q).2.1 = maxRouteScore q then QueryMode.LOOKUP
            else QueryMode.RAG,
          confidence30 := imin (5 * maxRouteScore q) 30 } := rfl

theorem maxRouteScore_nonneg (q : List Char) : 0 ≤ maxRouteScore q := by
  have h := calcScore_nonneg q
  unfold maxRouteScore
  rw [imax_eq_max, imax_eq_max]
  exact le_trans h (le_max_left _ _)

theorem maxRouteScore_eq_zero_iff (q : List Char) :
    maxRouteScore q = 0 ↔
      (routeScores q).1 = 0 ∧ (routeScores q).2.1 = 0 ∧ (routeScores q).2.2 = 0 := by
  have hc := calcScore_nonneg q
  have hr := ragScore_nonneg q
  have hl := lookupScore_cases q
  unfold maxRouteScore
  rw [imax_eq_max, imax_eq_max]
  constructor
  · intro h
    have h1 : (routeScores q).1 ≤ 0 := h ▸ le_max_left _ _
    have h2 : (routeScores q).2.1 ≤ 0 :=
      h ▸ le_trans (le_max_left _ _) (le_max_right _ _)
    have h3 : (routeScores q).2.2 ≤ 0 :=
      h ▸ le_trans (le_max_right _ _) (le_max_right _ _)
    refine ⟨le_antisymm h1 hc, ?_, le_antisymm h3 hr⟩
    rcases hl with hl | hl
    · exact le_antisymm h2 hl
    · linarith
  · rintro ⟨h1, h2, h3⟩
    simp [h1, h2, h3]

/-- C9: for every query the routing confidence lies in the unit interval,
and whenever at least one mode score is nonzero the confidence equals
min(max_score / 3, 1), where the max score in original units is half the
stored half-unit value. -/
theorem C9_confidence_formula (q : List Char) :
    0 ≤ confidenceQ q ∧ confidenceQ q ≤ 1 ∧
      ((routeScores q).1 ≠ 0 ∨ (routeScores q).2.1 ≠ 0 ∨ (routeScores q).2.2 ≠ 0 →
        confidenceQ q = min ((maxRouteScore q : ℚ) / 2 / 3) 1) := by
  have hM := maxRouteScore_nonneg q
  by_cases h0 : maxRouteScore q = 0
  · have hroute : route q = { mode := QueryMode.LOOKUP, confidence30 := 9 } := by
      rw [route_eq_branch, if_pos h0]
    have hconf : confidenceQ q = 9 / 30 := by
      simp [confidenceQ, hroute]
    refine ⟨by rw [hconf]; norm_num, by rw [hconf]; norm_num, ?_⟩
    intro h
    exfalso
    rcases (maxRouteScore_eq_zero_iff q).1 h0 with ⟨h1, h2, h3⟩
    rcases h with h | h | h <;> exact h (by assumption)
  · have hroute : (route q).confidence30 = imin (5 * maxRouteScore q) 30 := by
      rw [route_eq_branch, if_neg h0]
    have hMpos : 0 < maxRouteScore q := lt_of_le_of_ne hM (Ne.symm h0)
    have hval : confidenceQ q = min ((maxRouteScore q : ℚ) / 2 / 3) 1 := by
      rw [confidenceQ, hroute, imin_eq_min]
      push_cast [Int.cast_min]
      rw [div_eq_iff (by norm_num : (30 : ℚ) ≠ 0)]
      rcases le_total ((5 : ℚ) * (maxRouteScore q : ℚ)) 30 with h | h
      · rw [min_eq_left h, min_eq_left (by linarith), div_div]
        ring
      · rw [min_eq_right h, min_eq_right (by rw [div_div]; linarith)]
        norm_num
    refine ⟨?_, ?_, fun _ => hval⟩
    · rw [hval]
      have : (0 : ℚ) ≤ (maxRouteScore q : ℚ) / 2 / 3 := by positivity
      exact le_min this (by norm_num)
    · rw [hval]
      exact min_le_right _ _

/-- Witness for C9 at the concrete query 합계, whose CALC score is
nonzero. -/
theorem C9_confidence_formula_witness :
    confidenceQ "합계".data =
      min ((maxRouteScore "합계".data : ℚ) / 2 / 3) 1 :=
  (C9_confidence_formula "합계".data).2.2 (Or.inl (by decide))

/-- C1 counterexample: the query 삼성전자 contains zero keywords from all
three keyword sets, yet route returns confidence 2/3 (corporate-name bonus
rule 5 fires), not 0.3, refuting the claim as stated. -/
theorem C1_counterexample_zero_keywords_not_03 :
    keywordScore (lowerChars "삼성전자".data) CALC_KEYWORDS = 0 ∧
    keywordScore (lowerChars "삼성전자".data) LOOKUP_KEYWORDS = 0 ∧
    keywordScore (lowerChars "삼성전자".data) RAG_KEYWORDS = 0 ∧
    (route "삼성전자".data).mode = QueryMode.LOOKUP ∧
    confidenceQ "삼성전자".data ≠ 3 / 10 := by
  refine ⟨by decide, by decide, by decide, by decide, ?_⟩
  have h : (route "삼성전자".data).confidence30 = 20 := by decide
  rw [confidenceQ, h]
  norm_num

/-- C1 amended: a query with zero keywords from all three sets on which no
bonus rule (1-6) fires routes to LOOKUP with confidence exactly 0.3. -/
theorem C1_amended_no_keyword_default (q : List Char)
    (hc : keywordScore (lowerChars q) CALC_KEYWORDS = 0)
    (hl : keywordScore (lowerChars q) LOOKUP_KEYWORDS = 0)
    (hr : keywordScore (lowerChars q) RAG_KEYWORDS = 0)
    (h1 : routerRule1 (lowerChars q) = false)
    (h2 : routerRule2 q = false)
    (h3 : routerRule3 q = false)
    (h4 : routerRule4 q = false)
    (h5 : containsSpecificName q = false)
    (h6 : routerRule6 q = false) :
    route q = { mode := QueryMode.LOOKUP, confidence30 := 9 } ∧
      confidenceQ q = 3 / 10 := by
  have hs : routeScores q = (0, 0, 0) := by
    have hdef : routeScores q = adjustScores
        (keywordScore (lowerChars q) CALC_KEYWORDS)
        (keywordScore (lowerChars q) LOOKUP_KEYWORDS)
        (keywordScore (lowerChars q) RAG_KEYWORDS)
        (routerRule1 (lowerChars q)) (routerRule2 q) (routerRule3 q)
        (routerRule4 q) (containsSpecificName q) (routerRule6 q) := rfl
    rw [hdef, hc, hl, hr, h1, h2, h3, h4, h5, h6]
    decide
  have hM : maxRouteScore q = 0 := by
    rw [maxRouteScore, hs]
    decide
  have hroute : route q = { mode := QueryMode.LOOKUP, confidence30 := 9 } := by
    rw [route_eq_branch, if_pos hM]
  refine ⟨hroute, ?_⟩
  rw [confidenceQ, hroute]
  norm_num

/-- Witness for the amended C1 at the concrete keyword-free query x. -/
theorem C1_amended_no_keyword_default_witness :
    route "x".data = { mode := QueryMode.LOOKUP, confidence30 := 9 } ∧
      confidenceQ "x".data = 3 / 10 :=
  C1_amended_no_keyword_default "x".data (by decide) (by decide) (by decide)
    (by decide) (by decide) (by decide) (by decide) (by decide) (by decide)

/-!
CalcEngine (src/old_files/calc_engine.py): query analysis and the
sort/limit stage of _calculate_single_dataset. The grouped result table is
modelled as a list of (group key, numeric value) pairs: the company
group-by path with one numeric column, as in the spec's worked scenario;
the universally quantified input table stands for the dataframe after any
date filtering, so the sort/limit properties cover every filter outcome.
-/

/-- Aggregation functions recognized by CalcEngine._analyze_query. -/
inductive AggFn where
  | sum
  | mean
  | count
  | max
  | min
deriving DecidableEq, Repr

/-- Sort directions of CalcEngine._analyze_query. -/
inductive SortDir where
  | desc
  | asc
deriving DecidableEq, Repr

/-- Analysis record produced by CalcEngine._analyze_query. -/
structure CalcAnalysis where
  aggregation : Option AggFn
  groupby : Option (List Char)
  sort : Option SortDir
  limit : Option Nat
  timeRangeYear : Option (List Char)
  timeRangeMonth : Option (List Char)
deriving DecidableEq, Repr

/-- Four digits followed by the year character at the head of the string:
the captured year group. -/
def yearAt : List Char → Option (List Char)
  | a :: b :: c :: d :: e :: _ =>
    if a.isDigit && b.isDigit && c.isDigit && d.isDigit && e == '년' then
      some [a, b, c, d]
    else none
  | _ => none

/-- Leftmost year token of the string. -/
def findYear : List Char → Option (List Char)
  | [] => none
  | c :: rest =>
    match yearAt (c :: rest) with
    | some y => some y
    | none => findYear rest

/-- Greedy digit run followed by the month character at the head of the
string: the captured month group. -/
def monthAt (s : List Char) : Option (List Char) :=
  let l := digitRunLen s
  if l ≠ 0 && ((s.drop l).headD ' ' == '월') then some (s.take l) else none

/-- Leftmost month token of the string. -/
def findMonth : List Char → Option (List Char)
  | [] => none
  | c :: rest =>
    match monthAt (c :: rest) with
    | some m => some m
    | none => findMonth rest

/-- CalcEngine._analyze_query: aggregation function, group-by target, sort
direction with top-N limit (default 5 when the sort keyword appears without
an explicit number; the explicit number is the first match of the top-N
pattern), and date range, all by substring and pattern tests in the order
of the source. -/
def analyzeQuery (q : List Char) : CalcAnalysis :=
  let ql := lowerChars q
  let aggregation :=
    if (["합계", "총", "전체"] : List String).any (fun w => containsSub w.data q) then
      some AggFn.sum
    else if containsSub "평균".data q then some AggFn.mean
    else if (["개수", "건수", "몇", "카운트"] : List String).any
        (fun w => containsSub w.data q) then some AggFn.count
    else if (["최대", "최댓값", "최고"] : List String).any
        (fun w => containsSub w.data q) then some AggFn.max
    else if (["최소", "최솟값", "최저"] : List String).any
        (fun w => containsSub w.data q) then some AggFn.min
    else none
  let groupby :=
    if containsSub "거래처별".data q then some "거래처".data
    else if containsSub "제품별".data q || containsSub "품목별".data q then
      some "제품".data
    else if containsSub "월별".data q then some "월".data
    else if containsSub "분기별".data q then some "분기".data
    else none
  let sortLimit : Option SortDir × Option Nat :=
    if containsSub "상위".data q || containsSub "top".data ql then
      (some SortDir.desc, some ((findTopN ql).getD 5))
    else if containsSub "하위".data q then
      (some SortDir.asc, some ((findBottomN q).getD 5))
    else (none, none)
  let year := findYear q
  let month := if year.isSome then findMonth q else none
  { aggregation := aggregation, groupby := groupby,
    sort := sortLimit.1, limit := sortLimit.2,
    timeRangeYear := year, timeRangeMonth := month }

/-- Lexicographic strict comparison on character lists (code-point order,
the string order pandas uses for group keys). -/
def listLtCh : List Char → List Char → Bool
  | [], [] => false
  | [], _ :: _ => true
  | _ :: _, [] => false
  | a :: as, b :: bs => if a < b then true else if b < a then false else listLtCh as bs

/-- Lexicographic non-strict comparison on character lists. -/
def listLeCh (a b : List Char) : Bool :=
  !listLtCh b a

/-- Pandas groupby(key).sum() over a (key, value) table: distinct keys in
ascending key order (groupby sorts group keys), each with the sum of its
group's values. -/
def groupbySum (t : List (List Char × ℤ)) : List (List Char × ℤ) :=
  (List.insertionSort (fun a b => listLeCh a b = true) ((t.map Prod.fst).eraseDups)).map
    (fun k => (k, ((t.filter (fun r => r.1 == k)).map Prod.snd).sum))

/-- Descending order on the numeric column of the grouped result. -/
def descRel (p q : List Char × ℤ) : Prop := q.2 ≤ p.2

/-- Ascending order on the numeric column of the grouped result. -/
def ascRel (p q : List Char × ℤ) : Prop := p.2 ≤ q.2

instance : DecidableRel descRel := fun p q => Int.decLe q.2 p.2

instance : DecidableRel ascRel := fun p q => Int.decLe p.2 q.2

instance : IsTotal (List Char × ℤ) descRel :=
  ⟨fun a b => (le_total b.2 a.2).imp id id⟩

instance : IsTrans (List Char × ℤ) descRel :=
  ⟨fun _ _ _ h1 h2 => le_trans h2 h1⟩

instance : IsTotal (List Char × ℤ) ascRel :=
  ⟨fun a b => (le_total a.2 b.2).imp id id⟩

instance : IsTrans (List Char × ℤ) ascRel :=
  ⟨fun _ _ _ h1 h2 => le_trans h1 h2⟩

/-- Sort/limit stage of CalcEngine._calculate_single_dataset: when a sort
direction was requested, sort by the numeric column in that direction and,
when the limit is truthy in Python (set and nonzero), truncate to it. -/
def calcSortLimit (an : CalcAnalysis) (g : List (List Char × ℤ)) :
    List (List Char × ℤ) :=
  match an.sort with
  | none => g
  | some dir =>
    let sorted :=
      match dir with
      | SortDir.desc => List.insertionSort descRel g
      | SortDir.asc => List.insertionSort ascRel g
    match an.limit with
    | some (n + 1) => sorted.take (n + 1)
    | _ => sorted

/-- Company group-by sum pipeline of the calc engine followed by the
sort/limit stage. -/
def calcCompanyGroupSum (q : List Char) (t : List (List Char × ℤ)) :
    List (List Char × ℤ) :=
  calcSortLimit (analyzeQuery q) (groupbySum t)

/-- Adjacent-pairs check of strictly descending numeric values. -/
def chainStrictDescB : List (List Char × ℤ) → Bool
  | a :: b :: rest => (b.2 < a.2) && chainStrictDescB (b :: rest)
  | _ => true

/-- C2 counterexample: for the query 거래처별 합계 상위 0 the extracted
limit is 0, which is falsy in Python, so no truncation happens and the
returned row count is 2, not min(0, groups) = 0; and for 상위 2 over two
groups with equal sums the result is not strictly descending. -/
theorem C2_counterexample_limit0_and_ties :
    (analyzeQuery "거래처별 합계 상위 0".data).sort = some SortDir.desc ∧
    (analyzeQuery "거래처별 합계 상위 0".data).limit = some 0 ∧
    (calcCompanyGroupSum "거래처별 합계 상위 0".data
        [("A".data, 100), ("B".data, 50)]).length ≠
      Nat.min 0 (groupbySum [("A".data, 100), ("B".data, 50)]).length ∧
    (analyzeQuery "거래처별 합계 상위 2".data).limit = some 2 ∧
    chainStrictDescB (calcCompanyGroupSum "거래처별 합계 상위 2".data
        [("A".data, 100), ("B".data, 100)]) = false := by
  decide

/-- C2 amended: when a sort direction and a positive limit n are extracted,
the returned row count is min(n, number of groups) and the result is sorted
(non-strictly) in the requested direction on the numeric column; and when a
top keyword appears with no explicit number anywhere in the query, the
limit defaults to 5. -/
theorem C2_amended_topn_rowcount_sorted (q : List Char) (t : List (List Char × ℤ)) :
    (∀ dir n, (analyzeQuery q).sort = some dir → (analyzeQuery q).limit = some n →
      1 ≤ n →
      (calcCompanyGroupSum q t).length = Nat.min n (groupbySum t).length ∧
      (dir = SortDir.desc → (calcCompanyGroupSum q t).Pairwise descRel) ∧
      (dir = SortDir.asc → (calcCompanyGroupSum q t).Pairwise ascRel)) ∧
    ((containsSub "상위".data q || containsSub "top".data (lowerChars q)) = true →
      findTopN (lowerChars q) = none →
      (analyzeQuery q).limit = some 5) := by
  constructor
  · intro dir n hs hl hn
    obtain ⟨m, rfl⟩ : ∃ m, n = m + 1 := ⟨n - 1, by omega⟩
    have hpipe : calcCompanyGroupSum q t =
        (match dir with
          | SortDir.desc => List.insertionSort descRel (groupbySum t)
          | SortDir.asc => List.insertionSort ascRel (groupbySum t)).take (m + 1) := by
      unfold calcCompanyGroupSum calcSortLimit
      rw [hs, hl]
    refine ⟨?_, ?_, ?_⟩
    · rw [hpipe, List.length_take]
      cases dir <;>
        simp [List.Perm.length_eq (List.perm_insertionSort _ (groupbySum t))]
    · rintro rfl
      rw [hpipe]
      exact ((List.sorted_insertionSort descRel (groupbySum t)).sublist
        (List.take_sublist _ _))
    · rintro rfl
      rw [hpipe]
      exact ((List.sorted_insertionSort ascRel (groupbySum t)).sublist
        (List.take_sublist _ _))
  · intro htop hnone
    unfold analyzeQuery
    have htop2 : containsSub "상위".data q = true ∨
        containsSub "top".data (lowerChars q) = true := by
      simpa using htop
    rcases htop2 with h | h <;> simp [h, hnone]

/-- Witness for the amended C2: the spec's worked scenario (groups A with
sum 150 and B with 300, query 상위 2) plus the default-5 clause at a query
with the top keyword and no number. -/
theorem C2_amended_topn_rowcount_sorted_witness :
    (calcCompanyGroupSum "거래처별 합계 상위 2".data
        [("A".data, 100), ("B".data, 300), ("A".data, 50)]).length =
      Nat.min 2 (groupbySum
        [("A".data, 100), ("B".data, 300), ("A".data, 50)]).length ∧
    (calcCompanyGroupSum "거래처별 합계 상위 2".data
        [("A".data, 100), ("B".data, 300), ("A".data, 50)]).Pairwise descRel ∧
    (analyzeQuery "상위 거래처별 합계".data).limit = some 5 := by
  have h := (C2_amended_topn_rowcount_sorted "거래처별 합계 상위 2".data
    [("A".data, 100), ("B".data, 300), ("A".data, 50)]).1
    SortDir.desc 2 (by decide) (by decide) (by decide)
  exact ⟨h.1, h.2.1 rfl,
    (C2_amended_topn_rowcount_sorted "상위 거래처별 합계".data []).2
      (by decide) (by decide)⟩

/-!
mask_sensitive_info (src/utils.py) over SENSITIVE_PATTERNS (src/config.py):
three dash-separated digit-run regexes substituted in dict order
(business-registration number 3-2-5, national ID number 6-7, phone number
(2..3)-(3..4)-4). For such patterns, greedy matching with backtracking is
equivalent to the following deterministic rule, because a digit run cannot
match the literal dash: every non-final quantified run must consume the
whole maximal digit run at its position, whose length must lie within the
quantifier bounds, followed by the dash; the final run consumes
min(upper bound, maximal run) digits provided the maximal run reaches the
lower bound. re.sub scans left to right, replaces each non-overlapping
match, and resumes after the match.
-/

/-- Match of a dash-separated digit-run pattern (list of quantifier bounds)
at the head of the string, returning the digit runs of the match. -/
def matchRuns : List (Nat × Nat) → List Char → Option (List (List Char))
  | [], _ => some []
  | [(mn, mx)], s =>
    if mn ≤ digitRunLen s then some [s.take (Nat.min mx (digitRunLen s))] else none
  | (mn, mx) :: p :: ps, s =>
    if mn ≤ digitRunLen s ∧ digitRunLen s ≤ mx ∧
        (s.drop (digitRunLen s)).headD ' ' = '-' then
      (matchRuns (p :: ps) (s.drop (digitRunLen s + 1))).map
        (fun rs => s.take (digitRunLen s) :: rs)
    else none

/-- Length of the matched text: the runs joined by single dashes. -/
def matchedLen : List (List Char) → Nat
  | [] => 0
  | [r] => r.length
  | r :: rs => r.length + 1 + matchedLen rs

/-- One pass of re.sub for a digit-run pattern: scan left to right, replace
each match and resume after it. The fuel only bounds the recursion; every
step consumes at least one character, so fuel equal to the string length is
enough (reSub below supplies it). On a match of length k the scan resumes
at offset k, that is at rest.drop (k - 1). -/
def reSubF (pat : List (Nat × Nat)) (repl : List (List Char) → List Char) :
    Nat → List Char → List Char
  | _, [] => []
  | 0, c :: rest => c :: rest
  | fuel + 1, c :: rest =>
    match matchRuns pat (c :: rest) with
    | some runs => repl runs ++ reSubF pat repl fuel (rest.drop (matchedLen runs - 1))
    | none => c :: reSubF pat repl fuel rest

/-- re.sub of a digit-run pattern over the whole string. -/
def reSub (pat : List (Nat × Nat)) (repl : List (List Char) → List Char)
    (s : List Char) : List Char :=
  reSubF pat repl s.length s

/-- Join digit runs with single dashes: reconstructs the matched text, and
is the inverse of splitting on the dash. -/
def intercal : List (List Char) → List Char
  | [] => []
  | [r] => r
  | r :: rs => r ++ '-' :: intercal rs

/-- Replacement for a business-registration-number match:
parts[0]-**-*** followed by the last two characters of parts[2]; any other
split shape returns the match unchanged (the guard of the source). -/
def bizRepl : List (List Char) → List Char
  | [p0, _, p2] =>
    p0 ++ ('-' :: '*' :: '*' :: '-' :: '*' :: '*' :: '*' :: p2.drop (p2.length - 2))
  | runs => intercal runs

/-- Replacement for a national-ID-number match: parts[0] followed by a dash
and seven asterisks. -/
def juminRepl : List (List Char) → List Char
  | [p0, _] => p0 ++ ('-' :: List.replicate 7 '*')
  | runs => intercal runs

/-- Replacement for a phone-number match: parts[0], a dash, asterisks of
the middle part's length, a dash, parts[2]. -/
def phoneRepl : List (List Char) → List Char
  | [p0, p1, p2] => p0 ++ '-' :: (List.replicate p1.length '*' ++ '-' :: p2)
  | runs => intercal runs

/-- Business-registration-number pattern: 3-2-5 digits. -/
def bizPat : List (Nat × Nat) := [(3, 3), (2, 2), (5, 5)]

/-- National-ID-number pattern: 6-7 digits. -/
def juminPat : List (Nat × Nat) := [(6, 6), (7, 7)]

/-- Phone-number pattern: (2..3)-(3..4)-4 digits. -/
def phonePat : List (Nat × Nat) := [(2, 3), (3, 4), (4, 4)]

/-- mask_sensitive_info: the three substitutions applied in the dict order
of SENSITIVE_PATTERNS. -/
def maskSensitiveInfo (s : List Char) : List Char :=
  reSub phonePat phoneRepl (reSub juminPat juminRepl (reSub bizPat bizRepl s))

/-- All characters are decimal digits. -/
def digitsOnly (l : List Char) : Bool :=
  l.all Char.isDigit

/-- Split on the dash character (Python str.split of the matched text). -/
def splitDash : List Char → List (List Char)
  | [] => [[]]
  | c :: rest =>
    if c = '-' then [] :: splitDash rest
    else
      match splitDash rest with
      | p :: ps => (c :: p) :: ps
      | [] => [[c]]

/-- The string is exactly one business-registration number. -/
def isBizExact (s : List Char) : Bool :=
  match splitDash s with
  | [p0, p1, p2] =>
    p0.length = 3 && p1.length = 2 && p2.length = 5 &&
      digitsOnly p0 && digitsOnly p1 && digitsOnly p2
  | _ => false

/-- The string is exactly one national ID number. -/
def isJuminExact (s : List Char) : Bool :=
  match splitDash s with
  | [p0, p1] =>
    p0.length = 6 && p1.length = 7 && digitsOnly p0 && digitsOnly p1
  | _ => false

/-- The string is exactly one phone number. -/
def isPhoneExact (s : List Char) : Bool :=
  match splitDash s with
  | [p0, p1, p2] =>
    (2 ≤ p0.length && p0.length ≤ 3) && (3 ≤ p1.length && p1.length ≤ 4) &&
      p2.length = 4 && digitsOnly p0 && digitsOnly p1 && digitsOnly p2
  | _ => false

theorem digitRunLen_le (s : List Char) : digitRunLen s ≤ s.length := by
  induction s with
  | nil => simp [digitRunLen]
  | cons c cs ih =>
    unfold digitRunLen
    split_ifs <;> simp <;> omega

theorem matchedLen_cons (r : List Char) (rs : List (List Char)) (h : rs ≠ []) :
    matchedLen (r :: rs) = r.length + 1 + matchedLen rs := by
  cases rs with
  | nil => exact absurd rfl h
  | cons a as => rfl

theorem matchRuns_bounds :
    ∀ (pat : List (Nat × Nat)) (s : List Char) (runs : List (List Char)),
    (∀ p ∈ pat, p.1 ≤ p.2) →
    matchRuns pat s = some runs →
    List.Forall₂ (fun (p : Nat × Nat) (r : List Char) =>
      p.1 ≤ r.length ∧ r.length ≤ p.2) pat runs ∧
    matchedLen runs ≤ s.length := by
  intro pat
  induction pat with
  | nil =>
    intro s runs _ h
    unfold matchRuns at h
    cases h
    exact ⟨List.Forall₂.nil, by simp [matchedLen]⟩
  | cons hd tl ih =>
    rcases hd with ⟨mn, mx⟩
    cases tl with
    | nil =>
      intro s runs hwf h
      unfold matchRuns at h
      split_ifs at h with hc
      · cases h
        have hle := digitRunLen_le s
        have hwf1 : mn ≤ mx := hwf (mn, mx) (by simp)
        have hmin1 : Nat.min mx (digitRunLen s) ≤ mx := Nat.min_le_left _ _
        have hmin2 : Nat.min mx (digitRunLen s) ≤ digitRunLen s := Nat.min_le_right _ _
        have hmin3 : mn ≤ Nat.min mx (digitRunLen s) := Nat.le_min.mpr ⟨hwf1, hc⟩
        constructor
        · refine List.Forall₂.cons ?_ List.Forall₂.nil
          simp only [List.length_take]
          omega
        · simp only [matchedLen, List.length_take]
          omega
    | cons p ps =>
      intro s runs hwf h
      unfold matchRuns at h
      split_ifs at h with hc
      rcases hc with ⟨h1, h2, h3⟩
      rcases Option.map_eq_some'.mp h with ⟨rs, hrs, rfl⟩
      have hlt : digitRunLen s < s.length := by
        by_contra hge
        have : s.drop (digitRunLen s) = [] := by
          apply List.drop_eq_nil_of_le
          omega
        rw [this] at h3
        simp at h3
      rcases ih (s.drop (digitRunLen s + 1)) rs
          (fun q hq => hwf q (List.mem_cons_of_mem _ hq)) hrs with ⟨hfa, hml⟩
      have hrsne : rs ≠ [] := by
        intro hrsnil
        rw [hrsnil] at hfa
        exact absurd (List.Forall₂.length_eq hfa) (by simp)
      constructor
      · refine List.Forall₂.cons ?_ hfa
        simp only [List.length_take]
        omega
      · rw [matchedLen_cons _ _ hrsne]
        simp only [List.length_take]
        rw [List.length_drop] at hml
        omega

theorem matchRuns_pos (pat : List (Nat × Nat)) (s : List Char)
    (runs : List (List Char)) (hpat : pat ≠ [])
    (hwf1 : ∀ p ∈ pat, 1 ≤ p.1) (hwf : ∀ p ∈ pat, p.1 ≤ p.2)
    (h : matchRuns pat s = some runs) : 1 ≤ matchedLen runs := by
  rcases pat with - | ⟨⟨mn, mx⟩, tl⟩
  · exact absurd rfl hpat
  · have hb := (matchRuns_bounds _ s runs hwf h).1
    cases hb with
    | cons hr htl =>
      rename_i r rs
      have h1 : 1 ≤ mn := hwf1 (mn, mx) (by simp)
      cases rs with
      | nil =>
        simp only [matchedLen]
        omega
      | cons a as =>
        rw [matchedLen_cons _ _ (by simp)]
        have := hr.1
        omega

theorem reSubF_length (pat : List (Nat × Nat)) (repl : List (List Char) → List Char)
    (hspec : ∀ s runs, matchRuns pat s = some runs →
      (repl runs).length = matchedLen runs ∧ 1 ≤ matchedLen runs ∧
      matchedLen runs ≤ s.length) :
    ∀ fuel s, (reSubF pat repl fuel s).length = s.length := by
  intro fuel
  induction fuel with
  | zero => intro s; cases s <;> rfl
  | succ n ih =>
    intro s
    cases s with
    | nil => rfl
    | cons c rest =>
      unfold reSubF
      cases hm : matchRuns pat (c :: rest) with
      | none =>
        simp [ih rest]
      | some runs =>
        rcases hspec (c :: rest) runs hm with ⟨hr, h1, h2⟩
        simp only [List.length_append, ih, List.length_drop, List.length_cons] at *
        omega

theorem reSub_length (pat : List (Nat × Nat)) (repl : List (List Char) → List Char)
    (hspec : ∀ s runs, matchRuns pat s = some runs →
      (repl runs).length = matchedLen runs ∧ 1 ≤ matchedLen runs ∧
      matchedLen runs ≤ s.length)
    (s : List Char) : (reSub pat repl s).length = s.length :=
  reSubF_length pat repl hspec s.length s

theorem forall2_two {R : Nat × Nat → List Char → Prop} {a b : Nat × Nat}
    {runs : List (List Char)} (h : List.Forall₂ R [a, b] runs) :
    ∃ r0 r1, runs = [r0, r1] ∧ R a r0 ∧ R b r1 := by
  cases h with | cons h0 hx =>
  cases hx with | cons h1 hy =>
  cases hy
  exact ⟨_, _, rfl, h0, h1⟩

theorem forall2_three {R : Nat × Nat → List Char → Prop} {a b c : Nat × Nat}
    {runs : List (List Char)} (h : List.Forall₂ R [a, b, c] runs) :
    ∃ r0 r1 r2, runs = [r0, r1, r2] ∧ R a r0 ∧ R b r1 ∧ R c r2 := by
  cases h with | cons h0 hx =>
  cases hx with | cons h1 hy =>
  cases hy with | cons h2 hz =>
  cases hz
  exact ⟨_, _, _, rfl, h0, h1, h2⟩

theorem bizRepl_spec (s : List Char) (runs : List (List Char))
    (h : matchRuns bizPat s = some runs) :
    (bizRepl runs).length = matchedLen runs ∧ 1 ≤ matchedLen runs ∧
      matchedLen runs ≤ s.length := by
  have hb := matchRuns_bounds bizPat s runs (by decide) h
  have hp := matchRuns_pos bizPat s runs (by decide) (by decide) (by decide) h
  refine ⟨?_, hp, hb.2⟩
  obtain ⟨p0, p1, p2, rfl, h0, h1, h2⟩ := forall2_three hb.1
  have e0 : p0.length = 3 := le_antisymm h0.2 h0.1
  have e1 : p1.length = 2 := le_antisymm h1.2 h1.1
  have e2 : p2.length = 5 := le_antisymm h2.2 h2.1
  simp [bizRepl, matchedLen, List.length_drop, e0, e1, e2]

theorem juminRepl_spec (s : List Char) (runs : List (List Char))
    (h : matchRuns juminPat s = some runs) :
    (juminRepl runs).length = matchedLen runs ∧ 1 ≤ matchedLen runs ∧
      matchedLen runs ≤ s.length := by
  have hb := matchRuns_bounds juminPat s runs (by decide) h
  have hp := matchRuns_pos juminPat s runs (by decide) (by decide) (by decide) h
  refine ⟨?_, hp, hb.2⟩
  obtain ⟨p0, p1, rfl, h0, h1⟩ := forall2_two hb.1
  have e0 : p0.length = 6 := le_antisymm h0.2 h0.1
  have e1 : p1.length = 7 := le_antisymm h1.2 h1.1
  simp [juminRepl, matchedLen, e0, e1]

theorem phoneRepl_spec (s : List Char) (runs : List (List Char))
    (h : matchRuns phonePat s = some runs) :
    (phoneRepl runs).length = matchedLen runs ∧ 1 ≤ matchedLen runs ∧
      matchedLen runs ≤ s.length := by
  have hb := matchRuns_bounds phonePat s runs (by decide) h
  have hp := matchRuns_pos phonePat s runs (by decide) (by decide) (by decide) h
  refine ⟨?_, hp, hb.2⟩
  obtain ⟨p0, p1, p2, rfl, h0, h1, h2⟩ := forall2_three hb.1
  simp [phoneRepl, matchedLen, List.length_append]
  omega

/-- C10: mask_sensitive_info preserves the character length of its input:
each replacement has exactly the length of its match and unmatched text is
copied unchanged. -/
theorem C10_mask_length_preserving (s : List Char) :
    (maskSensitiveInfo s).length = s.length := by
  unfold maskSensitiveInfo
  rw [reSub_length phonePat phoneRepl phoneRepl_spec,
    reSub_length juminPat juminRepl juminRepl_spec,
    reSub_length bizPat bizRepl bizRepl_spec]

/-!
Shape reasoning for the mask: an abstract alphabet of "some decimal digit"
and fixed literal characters. The matcher only inspects whether characters
are digits or the dash, so its behaviour is determined by the abstraction;
no-match checks over every suffix of a shape then become decidable.
-/

/-- Abstract character: an arbitrary decimal digit or a fixed literal. -/
inductive PatChar where
  | dig
  | lit (c : Char)
deriving DecidableEq, Repr

/-- The abstract character describes the concrete one. -/
def symMatches : PatChar → Char → Prop
  | PatChar.dig, c => c.isDigit = true
  | PatChar.lit d, c => c = d

/-- The symbolic string describes the concrete one position by position. -/
def Conc (σ : List PatChar) (s : List Char) : Prop :=
  List.Forall₂ symMatches σ s

/-- Digit test on the abstraction. -/
def symIsDigit : PatChar → Bool
  | PatChar.dig => true
  | PatChar.lit c => c.isDigit

/-- digitRunLen on the abstraction. -/
def symDigitRunLen : List PatChar → Nat
  | [] => 0
  | y :: ys => if symIsDigit y then symDigitRunLen ys + 1 else 0

/-- Head-is-dash test on the abstraction (a digit is never the dash). -/
def symHeadDash : List PatChar → Bool
  | PatChar.lit c :: _ => c == '-'
  | _ => false

/-- matchRuns on the abstraction, returning the run lengths. -/
def symMatchRuns : List (Nat × Nat) → List PatChar → Option (List Nat)
  | [], _ => some []
  | [(mn, mx)], σ =>
    if mn ≤ symDigitRunLen σ then some [Nat.min mx (symDigitRunLen σ)] else none
  | (mn, mx) :: p :: ps, σ =>
    if mn ≤ symDigitRunLen σ ∧ symDigitRunLen σ ≤ mx ∧
        symHeadDash (σ.drop (symDigitRunLen σ)) = true then
      (symMatchRuns (p :: ps) (σ.drop (symDigitRunLen σ + 1))).map
        (fun ls => symDigitRunLen σ :: ls)
    else none

/-- Cut successive runs of the given lengths (separated by one character)
out of the concrete string. -/
def chopRuns (s : List Char) : List Nat → List (List Char)
  | [] => []
  | [n] => [s.take n]
  | n :: ns => s.take n :: chopRuns (s.drop (n + 1)) ns

/-- matchedLen on run lengths. -/
def symMatchedLen : List Nat → Nat
  | [] => 0
  | [n] => n
  | n :: ns => n + 1 + symMatchedLen ns

theorem digit_not_dash {c : Char} (h : c.isDigit = true) : ¬(c = '-') := by
  intro e
  rw [e] at h
  exact absurd h (by decide)

theorem conc_isDigit {y : PatChar} {c : Char} (h : symMatches y c) :
    c.isDigit = symIsDigit y := by
  cases y with
  | dig => exact h
  | lit d => rw [h]; rfl

theorem conc_digitRunLen {σ : List PatChar} {s : List Char} (h : Conc σ s) :
    digitRunLen s = symDigitRunLen σ := by
  induction h with
  | nil => rfl
  | cons hy htl ih =>
    unfold digitRunLen symDigitRunLen
    rw [conc_isDigit hy, ih]

theorem conc_drop : ∀ (n : Nat) {σ : List PatChar} {s : List Char},
    Conc σ s → Conc (σ.drop n) (s.drop n) := by
  intro n
  induction n with
  | zero => intro σ s h; simpa using h
  | succ m ih =>
    intro σ s h
    cases h with
    | nil => exact List.Forall₂.nil
    | cons hy htl => exact ih htl

theorem conc_headDash {σ : List PatChar} {s : List Char} (h : Conc σ s) :
    ((s.headD ' ') = '-') ↔ (symHeadDash σ = true) := by
  cases h with
  | nil => simp [symHeadDash]
  | cons hy htl =>
    rename_i y c ys cs
    cases y with
    | dig =>
      simp only [List.headD_cons, symHeadDash]
      exact ⟨fun e => absurd e (digit_not_dash hy), fun e => absurd e (by simp)⟩
    | lit d =>
      simp only [List.headD_cons, symHeadDash, beq_iff_eq]
      rw [hy]

theorem conc_matchRuns : ∀ (pat : List (Nat × Nat)) {σ : List PatChar} {s : List Char},
    Conc σ s → matchRuns pat s = (symMatchRuns pat σ).map (chopRuns s) := by
  intro pat
  induction pat with
  | nil => intro σ s _; rfl
  | cons hd tl ih =>
    rcases hd with ⟨mn, mx⟩
    cases tl with
    | nil =>
      intro σ s h
      unfold matchRuns symMatchRuns
      rw [conc_digitRunLen h]
      split_ifs
      · simp [chopRuns]
      · rfl
    | cons p ps =>
      intro σ s h
      unfold matchRuns symMatchRuns
      rw [conc_digitRunLen h]
      simp only [conc_headDash (conc_drop (symDigitRunLen σ) h)]
      split_ifs
      · rw [ih (conc_drop (symDigitRunLen σ + 1) h)]
        cases hsm : symMatchRuns (p :: ps) (σ.drop (symDigitRunLen σ + 1)) with
        | none => rfl
        | some ls =>
          cases ls with
          | nil => simp [chopRuns]
          | cons n ns => simp [chopRuns]
      · rfl

theorem reSubF_id_of_symNone (pat : List (Nat × Nat))
    (repl : List (List Char) → List Char) :
    ∀ {σ : List PatChar} {s : List Char}, Conc σ s →
    σ.tails.all (fun τ => (symMatchRuns pat τ).isNone) = true →
    ∀ fuel, reSubF pat repl fuel s = s := by
  intro σ s h
  induction h with
  | nil =>
    intro _ fuel
    cases fuel <;> rfl
  | cons hy htl ih =>
    rename_i y c ys cs
    intro hnone fuel
    have hsplit : (symMatchRuns pat (y :: ys)).isNone = true ∧
        (List.tails ys).all (fun τ => (symMatchRuns pat τ).isNone) = true := by
      rw [List.tails_cons] at hnone
      simpa using hnone
    cases fuel with
    | zero => rfl
    | succ n =>
      have hm : matchRuns pat (c :: cs) = none := by
        rw [conc_matchRuns pat (List.Forall₂.cons hy htl)]
        rcases hopt : symMatchRuns pat (y :: ys) with - | v
        · rfl
        · rw [hopt] at hsplit
          exact absurd hsplit.1 (by simp)
      unfold reSubF
      rw [hm]
      rw [ih hsplit.2 n]

theorem reSub_id_of_symNone (pat : List (Nat × Nat))
    (repl : List (List Char) → List Char) {σ : List PatChar} {s : List Char}
    (h : Conc σ s)
    (hnone : σ.tails.all (fun τ => (symMatchRuns pat τ).isNone) = true) :
    reSub pat repl s = s :=
  reSubF_id_of_symNone pat repl h hnone s.length

theorem chopRuns_ne_nil (s : List Char) (ls : List Nat) (h : ls ≠ []) :
    chopRuns s ls ≠ [] := by
  cases ls with
  | nil => exact absurd rfl h
  | cons n ns => cases ns <;> simp [chopRuns]

theorem matchedLen_chopRuns : ∀ (ls : List Nat) (s : List Char),
    symMatchedLen ls ≤ s.length →
    matchedLen (chopRuns s ls) = symMatchedLen ls := by
  intro ls
  induction ls with
  | nil => intro s _; rfl
  | cons n ns ih =>
    intro s hle
    cases ns with
    | nil =>
      simp only [chopRuns, matchedLen, symMatchedLen, List.length_take] at *
      omega
    | cons m ms =>
      have hlen : symMatchedLen (m :: ms) ≤ (s.drop (n + 1)).length := by
        simp only [symMatchedLen, List.length_drop] at *
        omega
      rw [show chopRuns s (n :: m :: ms) =
          s.take n :: chopRuns (s.drop (n + 1)) (m :: ms) from rfl,
        matchedLen_cons _ _ (chopRuns_ne_nil _ _ (by simp)), ih _ hlen,
        List.length_take]
      simp only [symMatchedLen, List.length_drop] at *
      omega

theorem reSub_full_match (pat : List (Nat × Nat))
    (repl : List (List Char) → List Char) {σ : List PatChar} {s : List Char}
    (h : Conc σ s) {ls : List Nat}
    (hm : symMatchRuns pat σ = some ls)
    (hfull : symMatchedLen ls = σ.length)
    (hpos : 1 ≤ symMatchedLen ls) :
    reSub pat repl s = repl (chopRuns s ls) := by
  have hlen : σ.length = s.length := List.Forall₂.length_eq h
  cases s with
  | nil =>
    simp only [List.length_nil] at hlen
    omega
  | cons c rest =>
    have hmr : matchRuns pat (c :: rest) = some (chopRuns (c :: rest) ls) := by
      rw [conc_matchRuns pat h, hm]
      rfl
    have hml : matchedLen (chopRuns (c :: rest) ls) = symMatchedLen ls :=
      matchedLen_chopRuns ls (c :: rest) (by rw [hfull, hlen])
    show reSubF pat repl (c :: rest).length (c :: rest) = _
    rw [List.length_cons]
    unfold reSubF
    rw [hmr]
    dsimp only
    rw [hml, hfull, hlen]
    simp only [List.length_cons]
    rw [show rest.length + 1 - 1 = rest.length from rfl, List.drop_length]
    cases hre : rest.length <;> simp [reSubF]

theorem conc_append {σ1 σ2 : List PatChar} {s1 s2 : List Char}
    (h1 : Conc σ1 s1) (h2 : Conc σ2 s2) : Conc (σ1 ++ σ2) (s1 ++ s2) := by
  induction h1 with
  | nil => simpa using h2
  | cons hy htl ih => exact List.Forall₂.cons hy ih

theorem conc_digits {p : List Char} (h : digitsOnly p = true) :
    Conc (List.replicate p.length PatChar.dig) p := by
  induction p with
  | nil => exact List.Forall₂.nil
  | cons c cs ih =>
    simp only [digitsOnly, List.all_cons, Bool.and_eq_true] at h
    exact List.Forall₂.cons h.1 (ih (by simp [digitsOnly, h.2]))

theorem conc_lit_cons (c : Char) {σ : List PatChar} {s : List Char} (h : Conc σ s) :
    Conc (PatChar.lit c :: σ) (c :: s) :=
  List.Forall₂.cons rfl h

theorem conc_nil : Conc [] [] := List.Forall₂.nil

theorem splitDash_ne_nil (s : List Char) : splitDash s ≠ [] := by
  cases s with
  | nil => simp [splitDash]
  | cons c rest =>
    unfold splitDash
    split_ifs
    · simp
    · cases splitDash rest <;> simp

theorem intercal_splitDash (s : List Char) : intercal (splitDash s) = s := by
  induction s with
  | nil => rfl
  | cons c rest ih =>
    obtain ⟨q, qs, hq⟩ := List.exists_cons_of_ne_nil (splitDash_ne_nil rest)
    unfold splitDash
    split_ifs with hc
    · rw [hq, show intercal ([] :: q :: qs) = '-' :: intercal (q :: qs) from rfl,
        ← hq, ih, hc]
    · rw [hq]
      cases qs with
      | nil =>
        show c :: q = c :: rest
        rw [show q = intercal [q] from rfl, ← hq, ih]
      | cons r rs =>
        show (c :: q) ++ '-' :: intercal (r :: rs) = c :: rest
        rw [show ((c :: q) ++ '-' :: intercal (r :: rs)) =
          c :: (q ++ '-' :: intercal (r :: rs)) from rfl]
        rw [show (q ++ '-' :: intercal (r :: rs)) = intercal (q :: r :: rs) from rfl,
          ← hq, ih]

theorem isBizExact_shape {s : List Char} (h : isBizExact s = true) :
    ∃ p0 p1 p2 : List Char, s = p0 ++ '-' :: (p1 ++ '-' :: p2) ∧
      p0.length = 3 ∧ p1.length = 2 ∧ p2.length = 5 ∧
      digitsOnly p0 = true ∧ digitsOnly p1 = true ∧ digitsOnly p2 = true := by
  unfold isBizExact at h
  rcases hsp : splitDash s with - | ⟨p0, - | ⟨p1, - | ⟨p2, - | ⟨p3, ps⟩⟩⟩⟩ <;>
    rw [hsp] at h <;> simp at h
  refine ⟨p0, p1, p2, ?_, by tauto, by tauto, by tauto, by tauto, by tauto, by tauto⟩
  rw [← intercal_splitDash s, hsp]
  rfl

theorem isJuminExact_shape {s : List Char} (h : isJuminExact s = true) :
    ∃ p0 p1 : List Char, s = p0 ++ '-' :: p1 ∧
      p0.length = 6 ∧ p1.length = 7 ∧
      digitsOnly p0 = true ∧ digitsOnly p1 = true := by
  unfold isJuminExact at h
  rcases hsp : splitDash s with - | ⟨p0, - | ⟨p1, - | ⟨p2, ps⟩⟩⟩ <;>
    rw [hsp] at h <;> simp at h
  refine ⟨p0, p1, ?_, by tauto, by tauto, by tauto, by tauto⟩
  rw [← intercal_splitDash s, hsp]
  rfl

theorem isPhoneExact_shape {s : List Char} (h : isPhoneExact s = true) :
    ∃ p0 p1 p2 : List Char, s = p0 ++ '-' :: (p1 ++ '-' :: p2) ∧
      (p0.length = 2 ∨ p0.length = 3) ∧ (p1.length = 3 ∨ p1.length = 4) ∧
      p2.length = 4 ∧
      digitsOnly p0 = true ∧ digitsOnly p1 = true ∧ digitsOnly p2 = true := by
  unfold isPhoneExact at h
  rcases hsp : splitDash s with - | ⟨p0, - | ⟨p1, - | ⟨p2, - | ⟨p3, ps⟩⟩⟩⟩ <;>
    rw [hsp] at h <;> simp at h
  have hb1 : 2 ≤ p0.length ∧ p0.length ≤ 3 := by tauto
  have hb2 : 3 ≤ p1.length ∧ p1.length ≤ 4 := by tauto
  refine ⟨p0, p1, p2, ?_, by omega, by omega, by tauto, by tauto, by tauto,
    by tauto⟩
  rw [← intercal_splitDash s, hsp]
  rfl

theorem digitsOnly_drop {p : List Char} (n : Nat) (h : digitsOnly p = true) :
    digitsOnly (p.drop n) = true := by
  unfold digitsOnly at *
  rw [List.all_eq_true] at *
  exact fun x hx => h x (List.mem_of_mem_drop hx)

theorem take_structured (p t : List Char) :
    List.take p.length (p ++ '-' :: t) = p := by
  induction p with
  | nil => rfl
  | cons c cs ih => simpa using ih

theorem drop_structured (p t : List Char) :
    List.drop (p.length + 1) (p ++ '-' :: t) = t := by
  induction p with
  | nil => rfl
  | cons c cs ih => simpa using ih

theorem chopRuns_three (p0 p1 p2 : List Char) :
    chopRuns (p0 ++ '-' :: (p1 ++ '-' :: p2))
      [p0.length, p1.length, p2.length] = [p0, p1, p2] := by
  show List.take p0.length (p0 ++ '-' :: (p1 ++ '-' :: p2)) ::
      chopRuns (List.drop (p0.length + 1) (p0 ++ '-' :: (p1 ++ '-' :: p2)))
        [p1.length, p2.length] = _
  rw [take_structured, drop_structured]
  show p0 :: List.take p1.length (p1 ++ '-' :: p2) ::
      chopRuns (List.drop (p1.length + 1) (p1 ++ '-' :: p2)) [p2.length] = _
  rw [take_structured, drop_structured]
  show p0 :: p1 :: [List.take p2.length p2] = _
  rw [List.take_length]

theorem chopRuns_two (p0 p1 : List Char) :
    chopRuns (p0 ++ '-' :: p1) [p0.length, p1.length] = [p0, p1] := by
  show List.take p0.length (p0 ++ '-' :: p1) ::
      chopRuns (List.drop (p0.length + 1) (p0 ++ '-' :: p1)) [p1.length] = _
  rw [take_structured, drop_structured]
  show p0 :: [List.take p1.length p1] = _
  rw [List.take_length]

theorem mask_bizExact_parts (p0 p1 p2 : List Char)
    (e0 : p0.length = 3) (e1 : p1.length = 2) (e2 : p2.length = 5)
    (d0 : digitsOnly p0 = true) (d1 : digitsOnly p1 = true)
    (d2 : digitsOnly p2 = true) :
    maskSensitiveInfo (p0 ++ '-' :: (p1 ++ '-' :: p2)) =
      p0 ++ '-' :: '*' :: '*' :: '-' :: '*' :: '*' :: '*' :: p2.drop 3 := by
  have hcE : Conc
      (List.replicate 3 PatChar.dig ++ PatChar.lit '-' ::
        (List.replicate 2 PatChar.dig ++ PatChar.lit '-' ::
          List.replicate 5 PatChar.dig))
      (p0 ++ '-' :: (p1 ++ '-' :: p2)) := by
    refine conc_append ?_ (conc_lit_cons '-' (conc_append ?_ (conc_lit_cons '-' ?_)))
    · rw [← e0]; exact conc_digits d0
    · rw [← e1]; exact conc_digits d1
    · rw [← e2]; exact conc_digits d2
  have hm : symMatchRuns bizPat
      (List.replicate 3 PatChar.dig ++ PatChar.lit '-' ::
        (List.replicate 2 PatChar.dig ++ PatChar.lit '-' ::
          List.replicate 5 PatChar.dig)) = some [3, 2, 5] := by decide
  have h1 : reSub bizPat bizRepl (p0 ++ '-' :: (p1 ++ '-' :: p2)) =
      bizRepl (chopRuns (p0 ++ '-' :: (p1 ++ '-' :: p2)) [3, 2, 5]) :=
    reSub_full_match bizPat bizRepl hcE hm (by decide) (by decide)
  have hch : chopRuns (p0 ++ '-' :: (p1 ++ '-' :: p2)) [3, 2, 5] = [p0, p1, p2] := by
    have h := chopRuns_three p0 p1 p2
    rw [e0, e1, e2] at h
    exact h
  have hrepl : bizRepl [p0, p1, p2] =
      p0 ++ '-' :: '*' :: '*' :: '-' :: '*' :: '*' :: '*' :: p2.drop 3 := by
    simp [bizRepl, e2]
  have et : (p2.drop 3).length = 2 := by rw [List.length_drop, e2]
  have dt : digitsOnly (p2.drop 3) = true := digitsOnly_drop 3 d2
  have hcM : Conc
      (List.replicate 3 PatChar.dig ++ PatChar.lit '-' :: PatChar.lit '*' ::
        PatChar.lit '*' :: PatChar.lit '-' :: PatChar.lit '*' :: PatChar.lit '*' ::
        PatChar.lit '*' :: List.replicate 2 PatChar.dig)
      (p0 ++ '-' :: '*' :: '*' :: '-' :: '*' :: '*' :: '*' :: p2.drop 3) := by
    refine conc_append ?_ (conc_lit_cons '-' (conc_lit_cons '*' (conc_lit_cons '*'
      (conc_lit_cons '-' (conc_lit_cons '*' (conc_lit_cons '*'
        (conc_lit_cons '*' ?_)))))))
    · rw [← e0]; exact conc_digits d0
    · rw [← et]; exact conc_digits dt
  have h2 := reSub_id_of_symNone juminPat juminRepl hcM (by decide)
  have h3 := reSub_id_of_symNone phonePat phoneRepl hcM (by decide)
  unfold maskSensitiveInfo
  rw [h1, hch, hrepl, h2, h3]

theorem conc_reps (c : Char) (k : Nat) :
    Conc (List.replicate k (PatChar.lit c)) (List.replicate k c) := by
  induction k with
  | zero => exact conc_nil
  | succ n ih => exact List.Forall₂.cons rfl ih

theorem mask_juminExact_parts (p0 p1 : List Char)
    (e0 : p0.length = 6) (e1 : p1.length = 7)
    (d0 : digitsOnly p0 = true) (d1 : digitsOnly p1 = true) :
    maskSensitiveInfo (p0 ++ '-' :: p1) =
      p0 ++ '-' :: List.replicate 7 '*' := by
  have hcE : Conc
      (List.replicate 6 PatChar.dig ++ PatChar.lit '-' ::
        List.replicate 7 PatChar.dig)
      (p0 ++ '-' :: p1) := by
    refine conc_append ?_ (conc_lit_cons '-' ?_)
    · rw [← e0]; exact conc_digits d0
    · rw [← e1]; exact conc_digits d1
  have h1 := reSub_id_of_symNone bizPat bizRepl hcE (by decide)
  have hm : symMatchRuns juminPat
      (List.replicate 6 PatChar.dig ++ PatChar.lit '-' ::
        List.replicate 7 PatChar.dig) = some [6, 7] := by decide
  have h2 : reSub juminPat juminRepl (p0 ++ '-' :: p1) =
      juminRepl (chopRuns (p0 ++ '-' :: p1) [6, 7]) :=
    reSub_full_match juminPat juminRepl hcE hm (by decide) (by decide)
  have hch : chopRuns (p0 ++ '-' :: p1) [6, 7] = [p0, p1] := by
    have h := chopRuns_two p0 p1
    rw [e0, e1] at h
    exact h
  have hrepl : juminRepl [p0, p1] = p0 ++ '-' :: List.replicate 7 '*' := by
    simp [juminRepl]
  have hcM : Conc
      (List.replicate 6 PatChar.dig ++ PatChar.lit '-' ::
        List.replicate 7 (PatChar.lit '*'))
      (p0 ++ '-' :: List.replicate 7 '*') := by
    refine conc_append ?_ (conc_lit_cons '-' (conc_reps '*' 7))
    rw [← e0]; exact conc_digits d0
  have h3 := reSub_id_of_symNone phonePat phoneRepl hcM (by decide)
  unfold maskSensitiveInfo
  rw [h1, h2, hch, hrepl, h3]

theorem mask_phoneExact_parts (p0 p1 p2 : List Char)
    (e0 : p0.length = 2 ∨ p0.length = 3) (e1 : p1.length = 3 ∨ p1.length = 4)
    (e2 : p2.length = 4)
    (d0 : digitsOnly p0 = true) (d1 : digitsOnly p1 = true)
    (d2 : digitsOnly p2 = true) :
    maskSensitiveInfo (p0 ++ '-' :: (p1 ++ '-' :: p2)) =
      p0 ++ '-' :: (List.replicate p1.length '*' ++ '-' :: p2) := by
  have hcE : Conc
      (List.replicate p0.length PatChar.dig ++ PatChar.lit '-' ::
        (List.replicate p1.length PatChar.dig ++ PatChar.lit '-' ::
          List.replicate p2.length PatChar.dig))
      (p0 ++ '-' :: (p1 ++ '-' :: p2)) :=
    conc_append (conc_digits d0) (conc_lit_cons '-'
      (conc_append (conc_digits d1) (conc_lit_cons '-' (conc_digits d2))))
  have hch : chopRuns (p0 ++ '-' :: (p1 ++ '-' :: p2))
      [p0.length, p1.length, p2.length] = [p0, p1, p2] := chopRuns_three p0 p1 p2
  have hrepl : phoneRepl [p0, p1, p2] =
      p0 ++ '-' :: (List.replicate p1.length '*' ++ '-' :: p2) := by
    simp [phoneRepl]
  rcases e0 with e0 | e0 <;> rcases e1 with e1 | e1 <;>
  · rw [e0, e1, e2] at hcE
    rw [e0, e1, e2] at hch
    have h1 := reSub_id_of_symNone bizPat bizRepl hcE (by decide)
    have h2 := reSub_id_of_symNone juminPat juminRepl hcE (by decide)
    have h3 : reSub phonePat phoneRepl (p0 ++ '-' :: (p1 ++ '-' :: p2)) =
        phoneRepl (chopRuns (p0 ++ '-' :: (p1 ++ '-' :: p2))
          [p0.length, p1.length, p2.length]) := by
      rw [e0, e1, e2]
      exact reSub_full_match phonePat phoneRepl hcE (by decide) (by decide) (by decide)
    unfold maskSensitiveInfo
    rw [h1, h2, h3, e0, e1, e2, hch, hrepl]
    rw [e1]

theorem mask_fixed_bizMasked (p0 t2 : List Char)
    (e0 : p0.length = 3) (et : t2.length = 2)
    (d0 : digitsOnly p0 = true) (dt : digitsOnly t2 = true) :
    maskSensitiveInfo
        (p0 ++ '-' :: '*' :: '*' :: '-' :: '*' :: '*' :: '*' :: t2) =
      p0 ++ '-' :: '*' :: '*' :: '-' :: '*' :: '*' :: '*' :: t2 := by
  have hcM : Conc
      (List.replicate 3 PatChar.dig ++ PatChar.lit '-' :: PatChar.lit '*' ::
        PatChar.lit '*' :: PatChar.lit '-' :: PatChar.lit '*' :: PatChar.lit '*' ::
        PatChar.lit '*' :: List.replicate 2 PatChar.dig)
      (p0 ++ '-' :: '*' :: '*' :: '-' :: '*' :: '*' :: '*' :: t2) := by
    refine conc_append ?_ (conc_lit_cons '-' (conc_lit_cons '*' (conc_lit_cons '*'
      (conc_lit_cons '-' (conc_lit_cons '*' (conc_lit_cons '*'
        (conc_lit_cons '*' ?_)))))))
    · rw [← e0]; exact conc_digits d0
    · rw [← et]; exact conc_digits dt
  have h1 := reSub_id_of_symNone bizPat bizRepl hcM (by decide)
  have h2 := reSub_id_of_symNone juminPat juminRepl hcM (by decide)
  have h3 := reSub_id_of_symNone phonePat phoneRepl hcM (by decide)
  unfold maskSensitiveInfo
  rw [h1, h2, h3]

theorem mask_fixed_juminMasked (p0 : List Char)
    (e0 : p0.length = 6) (d0 : digitsOnly p0 = true) :
    maskSensitiveInfo (p0 ++ '-' :: List.replicate 7 '*') =
      p0 ++ '-' :: List.replicate 7 '*' := by
  have hcM : Conc
      (List.replicate 6 PatChar.dig ++ PatChar.lit '-' ::
        List.replicate 7 (PatChar.lit '*'))
      (p0 ++ '-' :: List.replicate 7 '*') := by
    refine conc_append ?_ (conc_lit_cons '-' (conc_reps '*' 7))
    rw [← e0]; exact conc_digits d0
  have h1 := reSub_id_of_symNone bizPat bizRepl hcM (by decide)
  have h2 := reSub_id_of_symNone juminPat juminRepl hcM (by decide)
  have h3 := reSub_id_of_symNone phonePat phoneRepl hcM (by decide)
  unfold maskSensitiveInfo
  rw [h1, h2, h3]

theorem mask_fixed_phoneMasked (p0 p2 : List Char) (k : Nat)
    (e0 : p0.length = 2 ∨ p0.length = 3) (ek : k = 3 ∨ k = 4)
    (e2 : p2.length = 4)
    (d0 : digitsOnly p0 = true) (d2 : digitsOnly p2 = true) :
    maskSensitiveInfo (p0 ++ '-' :: (List.replicate k '*' ++ '-' :: p2)) =
      p0 ++ '-' :: (List.replicate k '*' ++ '-' :: p2) := by
  have hcM : Conc
      (List.replicate p0.length PatChar.dig ++ PatChar.lit '-' ::
        (List.replicate k (PatChar.lit '*') ++ PatChar.lit '-' ::
          List.replicate p2.length PatChar.dig))
      (p0 ++ '-' :: (List.replicate k '*' ++ '-' :: p2)) :=
    conc_append (conc_digits d0) (conc_lit_cons '-'
      (conc_append (conc_reps '*' k) (conc_lit_cons '-' (conc_digits d2))))
  rcases e0 with e0 | e0 <;> rcases ek with ek | ek <;>
  · rw [e0, ek, e2] at hcM
    rw [ek]
    have h1 := reSub_id_of_symNone bizPat bizRepl hcM (by decide)
    have h2 := reSub_id_of_symNone juminPat juminRepl hcM (by decide)
    have h3 := reSub_id_of_symNone phonePat phoneRepl hcM (by decide)
    unfold maskSensitiveInfo
    rw [h1, h2, h3]

theorem containsSub_eq_of_length {s m : List Char} (h : containsSub s m = true)
    (hl : s.length = m.length) : s = m := by
  unfold containsSub at h
  rcases List.any_eq_true.mp h with ⟨t, ht, hpre⟩
  have htm : t <:+ m := (List.mem_tails t m).mp ht
  have hp : s <+: t := List.isPrefixOf_iff_prefix.mp hpre
  have h1 : t.length ≤ m.length := htm.length_le
  have h2 : s.length ≤ t.length := hp.length_le
  have htm2 : t = m := htm.eq_of_length (by omega)
  subst htm2
  exact hp.eq_of_length hl

/-- The masked output retains a nonempty all-digit suffix of the original
(the formal reading of the claim's kept short suffix). -/
def keepsDigitSuffix (s m : List Char) : Bool :=
  (List.range (Nat.min s.length m.length)).any (fun i =>
    decide (s.drop (s.length - (i + 1)) = m.drop (m.length - (i + 1))) &&
      digitsOnly (s.drop (s.length - (i + 1))))

/-- The masked output retains a nonempty all-digit prefix of the original. -/
def keepsDigitPrefix (s m : List Char) : Bool :=
  (List.range (Nat.min s.length m.length)).any (fun i =>
    decide (s.take (i + 1) = m.take (i + 1)) && digitsOnly (s.take (i + 1)))

/-- C3 counterexample: a national ID number keeps only its 6-digit prefix;
the whole 7-digit tail becomes asterisks, so no suffix of the original
survives, refuting the claim that registration and ID numbers both keep a
prefix and a short suffix. -/
theorem C3_counterexample_jumin_keeps_no_suffix :
    isJuminExact "123456-1234567".data = true ∧
    maskSensitiveInfo "123456-1234567".data = "123456-*******".data ∧
    keepsDigitPrefix "123456-1234567".data
      (maskSensitiveInfo "123456-1234567".data) = true ∧
    keepsDigitSuffix "123456-1234567".data
      (maskSensitiveInfo "123456-1234567".data) = false := by
  decide

/-- C3 amended: the exact masked forms. A registration number p0-p1-p2
becomes p0-**-*** followed by the last two digits of p2 (prefix and short
suffix kept); a national ID number p0-p1 becomes p0-******* (only the
prefix kept); a phone number p0-p1-p2 keeps area code p0 and last segment
p2 with the middle replaced by asterisks of its length. -/
theorem C3_amended_masked_forms (s : List Char) :
    (isBizExact s = true → ∀ p0 p1 p2 : List Char, splitDash s = [p0, p1, p2] →
      maskSensitiveInfo s =
        p0 ++ '-' :: '*' :: '*' :: '-' :: '*' :: '*' :: '*' :: p2.drop 3) ∧
    (isJuminExact s = true → ∀ p0 p1 : List Char, splitDash s = [p0, p1] →
      maskSensitiveInfo s = p0 ++ '-' :: List.replicate 7 '*') ∧
    (isPhoneExact s = true → ∀ p0 p1 p2 : List Char, splitDash s = [p0, p1, p2] →
      maskSensitiveInfo s =
        p0 ++ '-' :: (List.replicate p1.length '*' ++ '-' :: p2)) := by
  refine ⟨?_, ?_, ?_⟩
  · intro hb p0 p1 p2 hsp
    have hs : s = p0 ++ '-' :: (p1 ++ '-' :: p2) := by
      rw [← intercal_splitDash s, hsp]
      rfl
    unfold isBizExact at hb
    rw [hsp] at hb
    simp at hb
    rw [hs]
    exact mask_bizExact_parts p0 p1 p2 (by tauto) (by tauto) (by tauto)
      (by tauto) (by tauto) (by tauto)
  · intro hb p0 p1 hsp
    have hs : s = p0 ++ '-' :: p1 := by
      rw [← intercal_splitDash s, hsp]
      rfl
    unfold isJuminExact at hb
    rw [hsp] at hb
    simp at hb
    rw [hs]
    exact mask_juminExact_parts p0 p1 (by tauto) (by tauto) (by tauto) (by tauto)
  · intro hb p0 p1 p2 hsp
    have hs : s = p0 ++ '-' :: (p1 ++ '-' :: p2) := by
      rw [← intercal_splitDash s, hsp]
      rfl
    unfold isPhoneExact at hb
    rw [hsp] at hb
    simp at hb
    have hb1 : 2 ≤ p0.length ∧ p0.length ≤ 3 := by tauto
    have hb2 : 3 ≤ p1.length ∧ p1.length ≤ 4 := by tauto
    rw [hs]
    exact mask_phoneExact_parts p0 p1 p2 (by omega) (by omega) (by tauto)
      (by tauto) (by tauto) (by tauto)

/-- Witness for the amended C3 at one concrete value of each kind. -/
theorem C3_amended_masked_forms_witness :
    maskSensitiveInfo "214-86-59900".data =
      "214".data ++ '-' :: '*' :: '*' :: '-' :: '*' :: '*' :: '*' ::
        ("59900".data).drop 3 ∧
    maskSensitiveInfo "123456-1234567".data =
      "123456".data ++ '-' :: List.replicate 7 '*' ∧
    maskSensitiveInfo "02-123-4567".data =
      "02".data ++ '-' :: (List.replicate ("123".data).length '*' ++ '-' ::
        "4567".data) := by
  refine ⟨?_, ?_, ?_⟩
  · exact (C3_amended_masked_forms "214-86-59900".data).1 (by decide)
      "214".data "86".data "59900".data (by decide)
  · exact (C3_amended_masked_forms "123456-1234567".data).2.1 (by decide)
      "123456".data "1234567".data (by decide)
  · exact (C3_amended_masked_forms "02-123-4567".data).2.2 (by decide)
      "02".data "123".data "4567".data (by decide)

/-- Input on which masking is not idempotent: two overlapping PII-shaped
regions; the first substitution consumes the left one, and the surviving
right region is only picked up by a second application of the mask. -/
def c4Input : List Char := "123-45-6789012-34-56789".data

/-- C4 counterexample: masking c4Input once leaves the registration-shaped
substring 012-34-56789 (and its full digit sequence) intact in the output,
and masking the output again changes it, refuting both idempotence and the
no-surviving-digit-sequence claim. -/
theorem C4_counterexample_not_idempotent :
    maskSensitiveInfo (maskSensitiveInfo c4Input) ≠ maskSensitiveInfo c4Input ∧
    isBizExact "012-34-56789".data = true ∧
    containsSub "012-34-56789".data c4Input = true ∧
    containsSub "012-34-56789".data (maskSensitiveInfo c4Input) = true := by
  decide

theorem digitsOnly_head {a : Char} {t : List Char}
    (h : digitsOnly (a :: t) = true) : a.isDigit = true := by
  simp [digitsOnly] at h
  exact h.1

/-- C4 amended: on every value that is exactly one recognized PII pattern,
masking is idempotent and the masked output does not contain the original
value (so its full digit sequence cannot be recovered from the output). -/
theorem C4_amended_idempotent_on_exact (s : List Char)
    (h : isBizExact s = true ∨ isJuminExact s = true ∨ isPhoneExact s = true) :
    maskSensitiveInfo (maskSensitiveInfo s) = maskSensitiveInfo s ∧
    containsSub s (maskSensitiveInfo s) = false := by
  rcases h with h | h | h
  · obtain ⟨p0, p1, p2, rfl, e0, e1, e2, d0, d1, d2⟩ := isBizExact_shape h
    have hm := mask_bizExact_parts p0 p1 p2 e0 e1 e2 d0 d1 d2
    have hfix := mask_fixed_bizMasked p0 (p2.drop 3) e0
      (by rw [List.length_drop, e2]) d0 (digitsOnly_drop 3 d2)
    refine ⟨by rw [hm]; exact hfix, ?_⟩
    cases hcs : containsSub (p0 ++ '-' :: (p1 ++ '-' :: p2))
        (maskSensitiveInfo (p0 ++ '-' :: (p1 ++ '-' :: p2))) with
    | false => rfl
    | true =>
      exfalso
      have hlen := C10_mask_length_preserving (p0 ++ '-' :: (p1 ++ '-' :: p2))
      have heq := containsSub_eq_of_length hcs hlen.symm
      rw [hm] at heq
      have h2 := List.append_cancel_left heq
      injection h2 with hh2 h3
      obtain ⟨a, b, rfl⟩ := List.length_eq_two.mp e1
      injection h3 with h4 ht4
      have := digitsOnly_head d1
      rw [h4] at this
      exact absurd this (by decide)
  · obtain ⟨p0, p1, rfl, e0, e1, d0, d1⟩ := isJuminExact_shape h
    have hm := mask_juminExact_parts p0 p1 e0 e1 d0 d1
    have hfix := mask_fixed_juminMasked p0 e0 d0
    refine ⟨by rw [hm]; exact hfix, ?_⟩
    cases hcs : containsSub (p0 ++ '-' :: p1)
        (maskSensitiveInfo (p0 ++ '-' :: p1)) with
    | false => rfl
    | true =>
      exfalso
      have hlen := C10_mask_length_preserving (p0 ++ '-' :: p1)
      have heq := containsSub_eq_of_length hcs hlen.symm
      rw [hm] at heq
      have h2 := List.append_cancel_left heq
      injection h2 with hh2 h3
      cases p1 with
      | nil => simp at e1
      | cons a t =>
        injection h3 with h4 ht4
        have := digitsOnly_head d1
        rw [h4] at this
        exact absurd this (by decide)
  · obtain ⟨p0, p1, p2, rfl, e0, e1, e2, d0, d1, d2⟩ := isPhoneExact_shape h
    have hm := mask_phoneExact_parts p0 p1 p2 e0 e1 e2 d0 d1 d2
    have hfix := mask_fixed_phoneMasked p0 p2 p1.length e0 e1 e2 d0 d2
    refine ⟨by rw [hm]; exact hfix, ?_⟩
    cases hcs : containsSub (p0 ++ '-' :: (p1 ++ '-' :: p2))
        (maskSensitiveInfo (p0 ++ '-' :: (p1 ++ '-' :: p2))) with
    | false => rfl
    | true =>
      exfalso
      have hlen := C10_mask_length_preserving (p0 ++ '-' :: (p1 ++ '-' :: p2))
      have heq := containsSub_eq_of_length hcs hlen.symm
      rw [hm] at heq
      have h2 := List.append_cancel_left heq
      injection h2 with hh2 h3
      cases p1 with
      | nil => simp at e1
      | cons a t =>
        rw [show List.replicate (a :: t).length '*' =
          '*' :: List.replicate t.length '*' from rfl] at h3
        have h4 : a = '*' := by
          have := congrArg (fun l => l.headD ' ') h3
          simpa using this
        have := digitsOnly_head d1
        rw [h4] at this
        exact absurd this (by decide)

/-- Witness for the amended C4 at a concrete phone number. -/
theorem C4_amended_idempotent_on_exact_witness :
    maskSensitiveInfo (maskSensitiveInfo "010-1234-5678".data) =
      maskSensitiveInfo "010-1234-5678".data ∧
    containsSub "010-1234-5678".data
      (maskSensitiveInfo "010-1234-5678".data) = false :=
  C4_amended_idempotent_on_exact "010-1234-5678".data
    (Or.inr (Or.inr (by decide)))

/-!
LookupEngine (src/old_files/lookup_engine.py): search-condition extraction
and _search_in_dataset. A dataframe row is an association list from column
name to cell text; a missing association models a NaN cell, which
astype(str) renders as the text nan. Sorting by the date column follows
pandas sort_values with na_position last; the lexicographic order on
character lists is the string order pandas uses.
-/

/-- A dataframe row: column name to cell text. -/
def Row : Type := List (List Char × List Char)

instance : DecidableEq Row := by
  unfold Row
  infer_instance

/-- Cell of a row (none models NaN). -/
def getVal (r : Row) (c : List Char) : Option (List Char) :=
  (r.find? (fun p => p.1 == c)).map Prod.snd

/-- Cell text as astype(str) renders it (NaN becomes nan). -/
def valStr (r : Row) (c : List Char) : List Char :=
  (getVal r c).getD "nan".data

/-- Question words excluded from the proper-noun extraction of the lookup
engine (a longer stoplist than the router's). -/
def lookupQuestionWords : List (List Char) :=
  (["무엇", "어디", "언제", "누구", "왜", "어떻게", "합계", "평균",
    "알려", "보여", "최근", "방문"] : List String).map String.data

/-- Zero-pad to two characters (Python zfill(2) on the month group). -/
def zfill2 (m : List Char) : List Char :=
  if 2 ≤ m.length then m else List.replicate (2 - m.length) '0' ++ m

/-- Uppercase-letter-or-digit class of the code token pattern. -/
def charIsCode (c : Char) : Bool :=
  ('A' ≤ c && c ≤ 'Z') || c.isDigit

/-- Length of the maximal leading code-character run. -/
def codeRunLen : List Char → Nat
  | [] => 0
  | c :: cs => if charIsCode c then codeRunLen cs + 1 else 0

/-- Leftmost maximal code-character run of length at least three (the code
token pattern). -/
def findCode : List Char → Option (List Char)
  | [] => none
  | c :: rest =>
    if 3 ≤ codeRunLen (c :: rest) then
      some ((c :: rest).take (codeRunLen (c :: rest)))
    else findCode rest

/-- Search conditions of LookupEngine._extract_search_conditions. -/
structure LookupConds where
  name : Option (List Char)
  year : Option (List Char)
  month : Option (List Char)
  recent : Bool
  past : Bool
  code : Option (List Char)
deriving DecidableEq, Repr

/-- LookupEngine._extract_search_conditions: first Hangul run of length at
least two outside the stoplist (the optional company-suffix group of the
source regex is absorbed by the greedy run and adds nothing), year and
zero-padded month (month only recorded when a year matched), the
recent/past flags, and the first code token. -/
def extractSearchConditions (q : List Char) : LookupConds :=
  let name := ((hangulRuns q).filter (fun r => 2 ≤ r.length)).find?
    (fun r => !(lookupQuestionWords.contains r))
  let year := findYear q
  let month := if year.isSome then (findMonth q).map zfill2 else none
  let recent := containsSub "최근".data q
  let past := !recent && containsSub "지난".data q
  let code := findCode q
  { name := name, year := year, month := month, recent := recent,
    past := past, code := code }

/-- Filter chain of LookupEngine._search_in_dataset in source order: name
containment over the present name columns, code containment over the code
column, year containment and month containment over the date column. -/
def lookupFilters (conds : LookupConds) (cols : List (List Char))
    (rows : List Row) : List Row :=
  let r1 :=
    match conds.name with
    | some nm =>
      let nameCols :=
        (if cols.contains "B-1".data then ["B-1".data] else []) ++
        (if cols.contains "C-2".data then ["C-2".data] else [])
      if nameCols.isEmpty then rows
      else rows.filter (fun r => nameCols.any (fun c => containsSub nm (valStr r c)))
    | none => rows
  let r2 :=
    match conds.code with
    | some cd =>
      if cols.contains "B-2".data then
        r1.filter (fun r => containsSub cd (valStr r "B-2".data))
      else r1
    | none => r1
  let r3 :=
    match conds.year with
    | some y =>
      if cols.contains "A-2".data then
        r2.filter (fun r => containsSub y (valStr r "A-2".data))
      else r2
    | none => r2
  match conds.month with
  | some m =>
    if cols.contains "A-2".data then
      r3.filter (fun r => containsSub ('-' :: m) (valStr r "A-2".data))
    else r3
  | none => r3

/-- Descending order on the date column, missing dates last (pandas
sort_values with ascending False and na_position last). -/
def dateDescRel (r1 r2 : Row) : Prop :=
  match getVal r1 "A-2".data, getVal r2 "A-2".data with
  | some a, some b => b ≤ a
  | some _, none => True
  | none, some _ => False
  | none, none => True

instance : DecidableRel dateDescRel := fun r1 r2 => by
  unfold dateDescRel
  rcases getVal r1 "A-2".data with - | a <;> rcases getVal r2 "A-2".data with - | b <;>
    dsimp only <;> infer_instance

instance : IsTotal Row dateDescRel := by
  constructor
  intro r1 r2
  unfold dateDescRel
  rcases getVal r1 "A-2".data with - | a <;> rcases getVal r2 "A-2".data with - | b <;>
    simp
  exact le_total b a

instance : IsTrans Row dateDescRel := by
  constructor
  intro r1 r2 r3
  unfold dateDescRel
  rcases getVal r1 "A-2".data with - | a <;> rcases getVal r2 "A-2".data with - | b <;>
    rcases getVal r3 "A-2".data with - | c <;> simp
  exact fun h1 h2 => le_trans h2 h1

/-- LookupEngine._search_in_dataset up to the record-building step: filter,
sort descending by the date column when recent was requested and the date
column exists, and truncate to at most ten rows. -/
def searchInDataset (conds : LookupConds) (cols : List (List Char))
    (rows : List Row) : List Row :=
  let filtered := lookupFilters conds cols rows
  let sorted :=
    if conds.recent && cols.contains "A-2".data then
      List.insertionSort dateDescRel filtered
    else filtered
  sorted.take 10

/-- C7: for every query mentioning 최근 over a dataset with the date
column, the lookup search returns at most ten records, in descending date
order, and every returned record is one of the filtered (matching)
records. -/
theorem C7_recent_sorted_truncated (q : List Char) (cols : List (List Char))
    (rows : List Row)
    (hrecent : containsSub "최근".data q = true)
    (hcol : cols.contains "A-2".data = true) :
    (searchInDataset (extractSearchConditions q) cols rows).length ≤ 10 ∧
    (searchInDataset (extractSearchConditions q) cols rows).Pairwise dateDescRel ∧
    ∀ r ∈ searchInDataset (extractSearchConditions q) cols rows,
      r ∈ lookupFilters (extractSearchConditions q) cols rows := by
  have hrec : (extractSearchConditions q).recent = true := by
    unfold extractSearchConditions
    exact hrecent
  have hpipe : searchInDataset (extractSearchConditions q) cols rows =
      (List.insertionSort dateDescRel
        (lookupFilters (extractSearchConditions q) cols rows)).take 10 := by
    unfold searchInDataset
    rw [hrec, hcol]
    rfl
  refine ⟨?_, ?_, ?_⟩
  · rw [hpipe]
    exact List.length_take_le _ _
  · rw [hpipe]
    exact (List.sorted_insertionSort dateDescRel _).sublist (List.take_sublist _ _)
  · intro r hr
    rw [hpipe] at hr
    exact (List.perm_insertionSort dateDescRel _).mem_iff.mp (List.mem_of_mem_take hr)

/-- Witness for C7 at a concrete query and two-row dataset. -/
theorem C7_recent_sorted_truncated_witness :
    (searchInDataset (extractSearchConditions "최근 방문".data) ["A-2".data]
        [[("A-2".data, "2024-01-01".data)], [("A-2".data, "2024-02-01".data)]]).length ≤ 10 ∧
    (searchInDataset (extractSearchConditions "최근 방문".data) ["A-2".data]
        [[("A-2".data, "2024-01-01".data)], [("A-2".data, "2024-02-01".data)]]).Pairwise dateDescRel ∧
    ∀ r ∈ searchInDataset (extractSearchConditions "최근 방문".data) ["A-2".data]
        [[("A-2".data, "2024-01-01".data)], [("A-2".data, "2024-02-01".data)]],
      r ∈ lookupFilters (extractSearchConditions "최근 방문".data) ["A-2".data]
        [[("A-2".data, "2024-01-01".data)], [("A-2".data, "2024-02-01".data)]] :=
  C7_recent_sorted_truncated "최근 방문".data ["A-2".data]
    [[("A-2".data, "2024-01-01".data)], [("A-2".data, "2024-02-01".data)]]
    (by decide) (by decide)

/-!
SmartAnalyst._join_dataframes (src/smart_analyst.py): company code-name
mapping, company-column derivation, collision-avoiding renaming with a
file-derived tag, and iterative outer join on the company column; the
whole body runs under a try/except whose handler returns None. The pandas
merge call is abstracted as an oracle that may fail, modelling the
exceptions the external library can raise; the pure outer-join model below
instantiates it for the row-preservation property.
-/

/-- A table: column names plus rows. -/
structure Table where
  cols : List (List Char)
  rows : List Row
deriving DecidableEq

/-- Columns exempt from the collision-avoiding rename. -/
def importantCols : List (List Char) :=
  (["거래처", "거래처명", "거래처 코드", "매출일", "거래일", "합계",
    "총 판매금액", "공급가액", "마진율", "제품명", "제품군"] : List String).map
    String.data

/-- One pass of Python str.replace for a nonempty pattern (fuel bounds the
scan; every step consumes at least one character, so the string length is
enough fuel). -/
def replaceAllF (pat sub : List Char) : Nat → List Char → List Char
  | _, [] => []
  | 0, s => s
  | fuel + 1, c :: rest =>
    if pat.isPrefixOf (c :: rest) then
      sub ++ replaceAllF pat sub fuel ((c :: rest).drop pat.length)
    else c :: replaceAllF pat sub fuel rest

/-- Python str.replace over the whole string. -/
def replaceAll (pat sub s : List Char) : List Char :=
  replaceAllF pat sub s.length s

/-- File tag used as the rename name part: the replace chain of the source
applied to the file name. -/
def fileTag (filename : List Char) : List Char :=
  replaceAll "_1".data [] (replaceAll "ver1".data [] (replaceAll ")".data []
    (replaceAll "(".data [] (replaceAll " ".data "_".data
      (replaceAll ".csv".data [] filename)))))

/-- Column renaming of the collision-avoiding pass: columns outside the
important list get the file tag and an underscore in front. -/
def renameCol (tag c : List Char) : List Char :=
  if importantCols.contains c then c else tag ++ '_' :: c

/-- Renaming applied to one row: only the keys change. -/
def renameRow (tag : List Char) (r : Row) : Row :=
  r.map (fun p => (renameCol tag p.1, p.2))

/-- Renaming applied to a table. -/
def renameTable (tag : List Char) (t : Table) : Table :=
  { cols := t.cols.map (renameCol tag), rows := t.rows.map (renameRow tag) }

/-- Left part of the outer merge for one left row: paired with each
matching right row, or null-padded when nothing matches. -/
def joinLeftRow {α β : Type} (t2 : List (List Char × β)) (p : List Char × α) :
    List (List Char × Option α × Option β) :=
  match t2.filter (fun q => q.1 == p.1) with
  | [] => [(p.1, some p.2, none)]
  | ms => ms.map (fun q => (p.1, some p.2, some q.2))

/-- Outer merge of two keyed tables on the key: every left row paired with
each matching right row or null-padded, then the unmatched right rows
null-padded, as pandas merge how outer. -/
def outerJoin {α β : Type} (t1 : List (List Char × α)) (t2 : List (List Char × β)) :
    List (List Char × Option α × Option β) :=
  (t1.map (joinLeftRow t2)).flatten
  ++ (t2.filter (fun q => !(t1.any (fun p => p.1 == q.1)))).map
    (fun q => (q.1, none, some q.2))

theorem length_filter_add_not {α : Type} (p : α → Bool) (l : List α) :
    (l.filter p).length + (l.filter (fun x => !(p x))).length = l.length := by
  induction l with
  | nil => rfl
  | cons a t ih =>
    cases hp : p a <;> simp [List.filter_cons, hp] <;> omega

theorem joinLeftRow_length {α β : Type} (t2 : List (List Char × β))
    (p : List Char × α) :
    (joinLeftRow t2 p).length = Nat.max 1 (t2.countP (fun q => q.1 == p.1)) := by
  unfold joinLeftRow
  rw [show t2.countP (fun q => q.1 == p.1) =
      (t2.filter (fun q => q.1 == p.1)).length by
    simp [List.countP_eq_length_filter]]
  generalize t2.filter (fun q => q.1 == p.1) = l
  cases l with
  | nil => rfl
  | cons m ms => simp [Nat.max_def]

theorem countP_sum_cons {α β : Type} (t1 : List (List Char × α))
    (q : List Char × β) (t2 : List (List Char × β)) :
    (t1.map (fun p => (q :: t2).countP (fun r => r.1 == p.1))).sum =
      (t1.map (fun p => t2.countP (fun r => r.1 == p.1))).sum +
        t1.countP (fun p => q.1 == p.1) := by
  induction t1 with
  | nil => rfl
  | cons a t ih =>
    simp only [List.map_cons, List.sum_cons]
    rw [ih]
    rw [List.countP_cons (fun r => r.1 == a.1) q t2,
      List.countP_cons (fun p => q.1 == p.1) a t]
    split_ifs <;> omega

theorem length_le_sum_max {α β : Type} (t2 : List (List Char × β))
    (t1 : List (List Char × α)) :
    t1.length ≤
      (t1.map (fun p => Nat.max 1 (t2.countP (fun q => q.1 == p.1)))).sum := by
  induction t1 with
  | nil => exact Nat.le.refl
  | cons a t ih =>
    simp only [List.map_cons, List.sum_cons, List.length_cons]
    have h : 1 ≤ Nat.max 1 (t2.countP (fun q => q.1 == a.1)) := Nat.le_max_left _ _
    omega

theorem sum_countP_le_sum_max {α β : Type} (t2 : List (List Char × β))
    (t1 : List (List Char × α)) :
    (t1.map (fun p => t2.countP (fun r => r.1 == p.1))).sum ≤
      (t1.map (fun p => Nat.max 1 (t2.countP (fun q => q.1 == p.1)))).sum := by
  induction t1 with
  | nil => exact Nat.le.refl
  | cons a t ih =>
    simp only [List.map_cons, List.sum_cons]
    have h : t2.countP (fun q => q.1 == a.1) ≤
        Nat.max 1 (t2.countP (fun q => q.1 == a.1)) := Nat.le_max_right _ _
    omega

theorem length_filter_add_not_key {α β : Type} (t1 : List (List Char × α))
    (t2 : List (List Char × β)) :
    (t2.filter (fun q => t1.any (fun p => p.1 == q.1))).length +
      (t2.filter (fun q => !(t1.any (fun p => p.1 == q.1)))).length =
        t2.length := by
  induction t2 with
  | nil => rfl
  | cons a t ih =>
    cases hp : t1.any (fun p => p.1 == a.1) <;>
      simp [List.filter_cons, hp] <;> omega

theorem matched_le_countP_sum {α β : Type} (t1 : List (List Char × α)) :
    ∀ t2 : List (List Char × β),
    (t2.filter (fun q => t1.any (fun p => p.1 == q.1))).length ≤
      (t1.map (fun p => t2.countP (fun r => r.1 == p.1))).sum := by
  intro t2
  induction t2 with
  | nil => simp
  | cons q t2h ih =>
    rw [countP_sum_cons]
    cases hm : t1.any (fun p => p.1 == q.1)
    · rw [List.filter_cons, if_neg (by simp [hm])]
      omega
    · rw [List.filter_cons, if_pos (by simp [hm])]
      simp only [List.length_cons]
      have hpos : 0 < t1.countP (fun p => q.1 == p.1) := by
        rw [List.countP_pos]
        rcases List.any_eq_true.mp hm with ⟨p, hp, hppq⟩
        refine ⟨p, hp, ?_⟩
        simp only [beq_iff_eq] at *
        exact hppq.symm
      omega

/-- C5: the outer join on the company key preserves every row of both
inputs (the result has at least max of the input lengths many rows), and
the renaming pass changes only column names: the sequence of cell values
of every row is unchanged, and lookups of the protected key columns are
unchanged. -/
theorem C5_outer_join_preserves_rows_rename_keeps_values :
    (∀ {α β : Type} (t1 : List (List Char × α)) (t2 : List (List Char × β)),
      Nat.max t1.length t2.length ≤ (outerJoin t1 t2).length) ∧
    (∀ (tag : List Char) (r : Row),
      (renameRow tag r).map Prod.snd = r.map Prod.snd) ∧
    (∀ (tag c : List Char) (r : Row), importantCols.contains c = true →
      getVal (renameRow tag r) c = getVal r c) := by
  refine ⟨?_, ?_, ?_⟩
  · intro α β t1 t2
    have hlen : (outerJoin t1 t2).length =
        (t1.map (fun p => Nat.max 1 (t2.countP (fun q => q.1 == p.1)))).sum +
          (t2.filter (fun q => !(t1.any (fun p => p.1 == q.1)))).length := by
      unfold outerJoin
      rw [List.length_append, List.length_flatten, List.map_map, List.length_map]
      have hmc : List.map (List.length ∘ joinLeftRow t2) t1 =
          List.map (fun p => Nat.max 1 (t2.countP (fun q => q.1 == p.1))) t1 :=
        List.map_congr_left (fun p _ => joinLeftRow_length t2 p)
      rw [hmc]
    have h1 := length_le_sum_max t2 t1
    have h2 := sum_countP_le_sum_max t2 t1
    have h3 := matched_le_countP_sum t1 t2
    have h4 := length_filter_add_not_key t1 t2
    rw [hlen, Nat.max_le]
    exact ⟨by omega, by omega⟩
  · intro tag r
    induction r with
    | nil => rfl
    | cons p t ih =>
      simp only [renameRow, List.map_cons] at ih ⊢
      rw [ih]
  · intro tag c r hc
    have hdash : ∀ x ∈ importantCols, ¬('_' ∈ x) := by decide
    have hcd : ¬('_' ∈ c) := by
      have hmem : c ∈ importantCols := List.elem_iff.mp hc
      exact hdash c hmem
    induction r with
    | nil => rfl
    | cons p t ih =>
      have hkey : (renameCol tag p.1 == c) = (p.1 == c) := by
        unfold renameCol
        split_ifs with hi
        · rfl
        · have hne : ¬(tag ++ '_' :: p.1 = c) := by
            intro he
            exact hcd (he ▸ List.mem_append_right tag (List.mem_cons_self _ _))
          have hcne : ¬(p.1 = c) := fun he => hi (by rw [he]; exact hc)
          simp [hne, hcne]
      simp only [getVal, renameRow, List.map_cons, List.find?_cons, hkey] at ih ⊢
      cases hpc : p.1 == c
      · simpa using ih
      · rfl

/-- Witness for C5 at a concrete row, tag, protected column and pair of
tables. -/
theorem C5_outer_join_preserves_rows_rename_keeps_values_witness :
    getVal (renameRow "f".data [("거래처".data, "Acme".data), ("x".data, "1".data)])
        "거래처".data =
      getVal [("거래처".data, "Acme".data), ("x".data, "1".data)] "거래처".data ∧
    Nat.max ([(("A".data : List Char), (1 : Nat))]).length
        ([(("A".data : List Char), (2 : Nat)), ("B".data, 3)]).length ≤
      (outerJoin [(("A".data : List Char), (1 : Nat))]
        [(("A".data : List Char), (2 : Nat)), ("B".data, 3)]).length :=
  ⟨C5_outer_join_preserves_rows_rename_keeps_values.2.2 "f".data "거래처".data
      [("거래처".data, "Acme".data), ("x".data, "1".data)] (by decide),
    C5_outer_join_preserves_rows_rename_keeps_values.1
      [(("A".data : List Char), (1 : Nat))]
      [(("A".data : List Char), (2 : Nat)), ("B".data, 3)]⟩

/-!
The joinability guard and exception handling of _join_dataframes: the
body builds the code-name maps, filters the tables that carry one of the
three company columns, transforms and renames them, and returns None when
fewer than two remain; otherwise it folds the pandas outer merge over the
rest. The merge call goes to the external library and may raise; the
whole body is wrapped in try/except returning None. The merge is an
oracle parameter returning Except, and the except handler is the match in
joinDataframes.
-/

/-- Python whitespace test for str.strip. -/
def isSpaceCh (c : Char) : Bool :=
  c == ' ' || c == '\t' || c == '\n' || c == '\r'

/-- Python str.strip: whitespace removed from both ends. -/
def pyStrip (s : List Char) : List Char :=
  ((s.dropWhile isSpaceCh).reverse.dropWhile isSpaceCh).reverse

/-- Python dict assignment d[k] = v on an association list. -/
def setAssoc (m : List (List Char × List Char)) (k v : List Char) :
    List (List Char × List Char) :=
  if m.any (fun p => p.1 == k) then
    m.map (fun p => if p.1 == k then (k, v) else p)
  else m ++ [(k, v)]

/-- One dropna row of the mapping pass: when both the code cell and the
name cell are present, record code-to-name and name-to-code with both
sides stripped. -/
def addMapRow (m : List (List Char × List Char) × List (List Char × List Char))
    (nameCol : List Char) (r : Row) :
    List (List Char × List Char) × List (List Char × List Char) :=
  match getVal r "거래처 코드".data, getVal r nameCol with
  | some code, some name =>
    (setAssoc m.1 (pyStrip code) (pyStrip name),
      setAssoc m.2 (pyStrip name) (pyStrip code))
  | _, _ => m

/-- The mapping pass over one table: rows feed the maps when the table has
the code column next to the name column or next to the alternate name
column. -/
def addMapTable
    (m : List (List Char × List Char) × List (List Char × List Char))
    (t : Table) :
    List (List Char × List Char) × List (List Char × List Char) :=
  if t.cols.contains "거래처 코드".data && t.cols.contains "거래처".data then
    t.rows.foldl (fun acc r => addMapRow acc "거래처".data r) m
  else if t.cols.contains "거래처 코드".data && t.cols.contains "거래처명".data then
    t.rows.foldl (fun acc r => addMapRow acc "거래처명".data r) m
  else m

/-- Code-to-name and name-to-code maps built over all input tables. -/
def buildCodeNameMaps (dfs : List (List Char × Table)) :
    List (List Char × List Char) × List (List Char × List Char) :=
  dfs.foldl (fun m p => addMapTable m p.2) ([], [])

/-- A table qualifies for joining when it has one of the three company
columns. -/
def hasCompanyCol (t : Table) : Bool :=
  t.cols.contains "거래처".data || t.cols.contains "거래처명".data ||
    t.cols.contains "거래처 코드".data

/-- Company-column unification: a missing company column is filled from
the name column, or from the code column through the code-to-name map
with the raw code as fallback. -/
def deriveCompany (c2n : List (List Char × List Char)) (t : Table) : Table :=
  if t.cols.contains "거래처".data then t
  else if t.cols.contains "거래처명".data then
    { cols := t.cols ++ ["거래처".data],
      rows := t.rows.map (fun (r : List (List Char × List Char)) =>
        match getVal r "거래처명".data with
        | some v => r ++ [("거래처".data, v)]
        | none => r) }
  else if t.cols.contains "거래처 코드".data then
    { cols := t.cols ++ ["거래처".data],
      rows := t.rows.map (fun (r : List (List Char × List Char)) =>
        match getVal r "거래처 코드".data with
        | some x => r ++ [("거래처".data,
            ((c2n.find? (fun p => p.1 == pyStrip x)).map Prod.snd).getD x)]
        | none => r) }
  else t

/-- Per-table transformation of the join pass: company-column derivation
followed by the collision-avoiding rename with the file tag. -/
def transformTable (c2n : List (List Char × List Char)) (filename : List Char)
    (t : Table) : Table :=
  renameTable (fileTag filename) (deriveCompany c2n t)

/-- The joinable tables: those with a company column, transformed. -/
def joinable (dfs : List (List Char × Table)) : List (List Char × Table) :=
  (dfs.filter (fun p => hasCompanyCol p.2)).map
    (fun p => (p.1, transformTable (buildCodeNameMaps dfs).1 p.1 p.2))

/-- Body of the try block: the guard returning None below two joinable
tables, then the iterative merge, whose failures surface as errors. -/
def joinBody (merge : Table → Table → Except (List Char) Table)
    (dfs : List (List Char × Table)) : Except (List Char) (Option Table) :=
  if (joinable dfs).length < 2 then Except.ok none
  else
    match ((joinable dfs).drop 1).foldlM (fun acc p => merge acc p.2)
        ((joinable dfs).headD ([], ⟨[], []⟩)).2 with
    | Except.ok r => Except.ok (some r)
    | Except.error e => Except.error e

/-- The whole function: the except handler turns every raised error into
None. -/
def joinDataframes (merge : Table → Table → Except (List Char) Table)
    (dfs : List (List Char × Table)) : Option Table :=
  match joinBody merge dfs with
  | Except.ok r => r
  | Except.error _ => none

/-- C6: whenever fewer than two input tables carry a company column the
join returns None, and whenever the body raises (the merge oracle
errors), the exception is caught and the join returns None rather than
propagating. -/
theorem C6_join_guard_and_exceptions :
    (∀ (merge : Table → Table → Except (List Char) Table)
        (dfs : List (List Char × Table)),
      (dfs.filter (fun p => hasCompanyCol p.2)).length < 2 →
        joinDataframes merge dfs = none) ∧
    (∀ (merge : Table → Table → Except (List Char) Table)
        (dfs : List (List Char × Table)) (e : List Char),
      joinBody merge dfs = Except.error e → joinDataframes merge dfs = none) := by
  constructor
  · intro merge dfs h
    have hlt : (joinable dfs).length < 2 := by
      simpa [joinable, List.length_map] using h
    have hb : joinBody merge dfs = Except.ok none := by
      unfold joinBody
      rw [if_pos hlt]
    unfold joinDataframes
    rw [hb]
  · intro merge dfs e h
    unfold joinDataframes
    rw [h]

/-- Witness for C6: a single-table input trips the guard, and a failing
merge oracle over two joinable tables is caught. -/
theorem C6_join_guard_and_exceptions_witness :
    ((([(("a".data : List Char), (⟨["x".data], []⟩ : Table))]).filter
        (fun p => hasCompanyCol p.2)).length < 2 ∧
      joinDataframes (fun _ _ => Except.error "merge failed".data)
        [(("a".data : List Char), (⟨["x".data], []⟩ : Table))] = none) ∧
    (joinBody (fun _ _ => Except.error "merge failed".data)
        [(("a".data : List Char), (⟨["거래처".data], []⟩ : Table)),
          ("b".data, ⟨["거래처".data], []⟩)] =
        Except.error "merge failed".data ∧
      joinDataframes (fun _ _ => Except.error "merge failed".data)
        [(("a".data : List Char), (⟨["거래처".data], []⟩ : Table)),
          ("b".data, ⟨["거래처".data], []⟩)] = none) :=
  ⟨⟨by decide,
    C6_join_guard_and_exceptions.1 (fun _ _ => Except.error "merge failed".data)
      [(("a".data : List Char), (⟨["x".data], []⟩ : Table))] (by decide)⟩,
    ⟨by rfl,
    C6_join_guard_and_exceptions.2 (fun _ _ => Except.error "merge failed".data)
      [(("a".data : List Char), (⟨["거래처".data], []⟩ : Table)),
        ("b".data, ⟨["거래처".data], []⟩)] "merge failed".data (by rfl)⟩⟩

/-!
load_csv_with_fallback (src/utils.py): the loop over ENCODINGS retries on
UnicodeDecodeError and UnicodeError, but any other exception (including
FileNotFoundError) returns None at once, skipping the remaining
encodings. The pandas read for one encoding is abstracted as an outcome:
a parse result, a Unicode error, or any other error.
-/

/-- Outcome of one pd.read_csv attempt under one encoding. -/
inductive ReadOutcome (α : Type) where
  | success (df : α)
  | unicodeErr
  | otherErr
deriving DecidableEq

/-- The fixed encoding list of src/config.py. -/
def ENCODINGS : List (List Char) :=
  (["utf-8-sig", "utf-8", "cp949", "euc-kr"] : List String).map String.data

/-- The loader loop: success returns the parse result, a Unicode error
moves to the next encoding, any other error returns None at once, and an
exhausted list returns None. -/
def loadCsvGo {α : Type} (read : List Char → ReadOutcome α) :
    List (List Char) → Option α
  | [] => none
  | e :: rest =>
    match read e with
    | ReadOutcome.success df => some df
    | ReadOutcome.unicodeErr => loadCsvGo read rest
    | ReadOutcome.otherErr => none

/-- The loader over the configured encodings. -/
def load_csv_with_fallback {α : Type} (read : List Char → ReadOutcome α) :
    Option α :=
  loadCsvGo read ENCODINGS

/-- The outcome stated by the spec's words, written from the spec for
comparison: scan past the Unicode errors; the first other outcome
decides. -/
def isUnicodeErr {α : Type} : ReadOutcome α → Bool
  | ReadOutcome.unicodeErr => true
  | _ => false

/-- First decisive encoding of the list: the first read that is not a
Unicode error gives the answer (its result on success, None otherwise);
all Unicode errors give None. -/
def firstDecisive {α : Type} (read : List Char → ReadOutcome α)
    (encs : List (List Char)) : Option α :=
  match encs.dropWhile (fun e => isUnicodeErr (read e)) with
  | [] => none
  | e :: _ =>
    match read e with
    | ReadOutcome.success df => some df
    | _ => none

theorem loadCsvGo_eq_firstDecisive {α : Type} (read : List Char → ReadOutcome α)
    (encs : List (List Char)) :
    loadCsvGo read encs = firstDecisive read encs := by
  induction encs with
  | nil => rfl
  | cons e rest ih =>
    simp only [loadCsvGo, firstDecisive, List.dropWhile_cons]
    cases h : read e with
    | success df => simp [h, isUnicodeErr]
    | unicodeErr =>
      simp only [h, isUnicodeErr, if_pos]
      rw [ih]
      rfl
    | otherErr => simp [h, isUnicodeErr]

/-- A read oracle whose first encoding raises a non-Unicode error while a
later encoding parses fine. -/
def c8Read : List Char → ReadOutcome Nat :=
  fun e => if e = "utf-8".data then ReadOutcome.success 1 else ReadOutcome.otherErr

/-- C8 counterexample: a non-Unicode error on the first encoding makes
the loader return None at once, even though a later listed encoding
("utf-8") parses successfully — so it is not true that the file is
rejected only when every encoding fails. -/
theorem C8_counterexample_other_error_skips_rest :
    load_csv_with_fallback c8Read = none ∧
    "utf-8".data ∈ ENCODINGS ∧ c8Read "utf-8".data = ReadOutcome.success 1 :=
  ⟨rfl, by decide, rfl⟩

/-- C8 amended: the loader's answer is decided by the first encoding, in
the fixed order, whose read is not a Unicode error (its parse result on
success, None on any other error; None when every read is a Unicode
error); and whenever the loader returns a parse result, some listed
encoding produced exactly that result. -/
theorem C8_amended_first_non_unicode_decides {α : Type}
    (read : List Char → ReadOutcome α) :
    load_csv_with_fallback read = firstDecisive read ENCODINGS ∧
    (∀ df, load_csv_with_fallback read = some df →
      ∃ e ∈ ENCODINGS, read e = ReadOutcome.success df) := by
  constructor
  · exact loadCsvGo_eq_firstDecisive read ENCODINGS
  · intro df
    unfold load_csv_with_fallback
    have hgen : ∀ encs : List (List Char), loadCsvGo read encs = some df →
        ∃ e ∈ encs, read e = ReadOutcome.success df := by
      intro encs
      induction encs with
      | nil => intro h; exact absurd h (by simp [loadCsvGo])
      | cons e rest ih =>
        intro h
        simp only [loadCsvGo] at h
        cases he : read e with
        | success d =>
          rw [he] at h
          refine ⟨e, List.mem_cons_self _ _, ?_⟩
          rw [he]
          simpa using h
        | unicodeErr =>
          rw [he] at h
          rcases ih h with ⟨e2, he2, hr⟩
          exact ⟨e2, List.mem_cons_of_mem _ he2, hr⟩
        | otherErr =>
          rw [he] at h
          exact absurd h (by simp)
    exact hgen ENCODINGS

/-- Witness for C8 amended at an always-succeeding read oracle. -/
theorem C8_amended_first_non_unicode_decides_witness :
    load_csv_with_fallback (fun _ => ReadOutcome.success (1 : Nat)) =
      firstDecisive (fun _ => ReadOutcome.success (1 : Nat)) ENCODINGS ∧
    ∃ e ∈ ENCODINGS,
      (fun _ => ReadOutcome.success (1 : Nat)) e = ReadOutcome.success 1 :=
  ⟨(C8_amended_first_non_unicode_decides
      (fun _ => ReadOutcome.success (1 : Nat))).1,
    (C8_amended_first_non_unicode_decides
      (fun _ => ReadOutcome.success (1 : Nat))).2 1 (by rfl)⟩
